import Mathlib

/-!
Verification development for the PDF-Auto devis-extraction pipeline.

This file shallowly embeds the string-processing core of the repository
(src/services/sanitize.py, validator.py, address_sanitizer.py,
rule_based_parser.py, devis_parser.py, extraction_normalizer.py,
data_normalizer.py and src/main.py) and proves or refutes the specified
properties of that core.

Python strings are modelled as `List Char`.  Python regular-expression
searches are modelled by small hand-rolled matchers which follow each
concrete pattern of the source literally; a matcher of type
`List Char → List (List Char)` returns the possible remainders of the
input after consuming a match starting at its head (the list-of-successes
encoding of a regex fragment).  Character classes such as Python
whitespace or `[0-9]` are modelled over the character sets that actually
occur in the pipeline (ASCII plus the French accented letters); the
divergences from full Unicode semantics are noted next to each definition.
Python functions whose body can raise an uncaught exception are embedded
with the result type `PyRes`, where `PyRes.exn` marks the raising runs.
-/

abbrev Str := List Char

def str (s : String) : Str := s.data

/-- Python whitespace characters, as matched by `str.strip` and `\s`
(restricted to the code points the pipeline manipulates). -/
def pyWsChars : Str :=
  [' ', '\t', '\n', '\r', '\x0b', '\x0c', '\x1c', '\x1d', '\x1e', '\x1f',
   '\u0085', '\u00A0', '\u202F']

def isPyWs (c : Char) : Bool := pyWsChars.contains c

/-- The ten ASCII digits; model of the regex class `\d` / `[0-9]`.
(Python `\d` also matches non-ASCII decimal digits; the pipeline only
ever feeds it ASCII text, so the ASCII model is used throughout.) -/
def isDig (c : Char) : Bool :=
  c ∈ ['0', '1', '2', '3', '4', '5', '6', '7', '8', '9']

def isLatinUpper (c : Char) : Bool := 'A' ≤ c && c ≤ 'Z'

def isLatinLower (c : Char) : Bool := 'a' ≤ c && c ≤ 'z'

def isLatin (c : Char) : Bool := isLatinUpper c || isLatinLower c

/-- French accented letters appearing in the source patterns (both cases). -/
def frAccented : Str :=
  ['à', 'â', 'ç', 'è', 'é', 'ê', 'ë', 'î', 'ï', 'ô', 'ù', 'û', 'ü',
   'À', 'Â', 'Ç', 'È', 'É', 'Ê', 'Ë', 'Î', 'Ï', 'Ô', 'Ù', 'Û', 'Ü']

/-- Model of the regex word-character class `\w` for the characters the
pipeline manipulates. -/
def isWordChar (c : Char) : Bool :=
  isLatin c || isDig c || c = '_' || frAccented.contains c

/-- Python `str.upper` on one character, restricted to ASCII plus the
French accented letters used by the source patterns. -/
def pyUpper (c : Char) : Char :=
  if isLatinLower c then c.toUpper
  else if c = 'à' then 'À' else if c = 'â' then 'Â' else if c = 'ç' then 'Ç'
  else if c = 'è' then 'È' else if c = 'é' then 'É' else if c = 'ê' then 'Ê'
  else if c = 'ë' then 'Ë' else if c = 'î' then 'Î' else if c = 'ï' then 'Ï'
  else if c = 'ô' then 'Ô' else if c = 'ù' then 'Ù' else if c = 'û' then 'Û'
  else if c = 'ü' then 'Ü' else c

/-- Python `str.lower` on one character (same restricted alphabet). -/
def pyLower (c : Char) : Char :=
  if isLatinUpper c then c.toLower
  else if c = 'À' then 'à' else if c = 'Â' then 'â' else if c = 'Ç' then 'ç'
  else if c = 'È' then 'è' else if c = 'É' then 'é' else if c = 'Ê' then 'ê'
  else if c = 'Ë' then 'ë' else if c = 'Î' then 'î' else if c = 'Ï' then 'ï'
  else if c = 'Ô' then 'ô' else if c = 'Ù' then 'ù' else if c = 'Û' then 'û'
  else if c = 'Ü' then 'ü' else c

def upperStr (l : Str) : Str := l.map pyUpper

def lowerStr (l : Str) : Str := l.map pyLower

/-- Python `str.strip`: drop leading and trailing whitespace. -/
def pyStrip (l : Str) : Str :=
  ((l.dropWhile isPyWs).reverse.dropWhile isPyWs).reverse

/-- Substring test: does `needle` occur contiguously inside `hay`?
Model of Python `needle in hay` and of an unanchored literal regex search. -/
def containsSub (hay needle : Str) : Bool :=
  match hay with
  | [] => needle.isEmpty
  | _ :: t => needle.isPrefixOf hay || containsSub t needle

/-- A regex word boundary holds before the current position when the
previous character (if any) is not a word character. -/
def boundaryOk : Option Char → Bool
  | none => true
  | some c => !isWordChar c

/-- After a token match, `\b` holds when the next character (if any) is
not a word character. -/
def afterBoundaryOk (needle : Str) (hay : Str) : Bool :=
  match hay.drop needle.length with
  | [] => true
  | c :: _ => !isWordChar c

def containsWordSubAux (prev : Option Char) (hay needle : Str) : Bool :=
  (boundaryOk prev && needle.isPrefixOf hay && afterBoundaryOk needle hay) ||
    match hay with
    | [] => false
    | c :: t => containsWordSubAux (some c) t needle

/-- Does `needle` occur in `hay` with a regex word boundary `\b` on both
sides? -/
def containsWordSub (hay needle : Str) : Bool :=
  containsWordSubAux none hay needle

/-- A matcher consumes a regex fragment from the head of the input and
returns every possible remainder (list-of-successes encoding). -/
abbrev Matcher := Str → List Str

def mLit (lit : Str) : Matcher := fun l =>
  if lit.isPrefixOf l then [l.drop lit.length] else []

/-- One mandatory character from a class: `[...]`. -/
def mCls (p : Char → Bool) : Matcher := fun l =>
  match l with
  | c :: t => if p c then [t] else []
  | [] => []

/-- Zero-or-one character from a class: `[...]?`. -/
def mOpt (p : Char → Bool) : Matcher := fun l =>
  match l with
  | c :: t => if p c then [t, c :: t] else [l]
  | [] => [l]

/-- Zero-or-more characters from a class: `[...]*` (all split points). -/
def mStar (p : Char → Bool) : Matcher := fun l =>
  l :: match l with
       | c :: t => if p c then mStar p t else []
       | [] => []

/-- One-or-more characters from a class: `[...]+`. -/
def mPlus (p : Char → Bool) : Matcher := fun l =>
  match l with
  | c :: t => if p c then mStar p t else []
  | [] => []

def mSeq (ms : List Matcher) : Matcher := fun l =>
  ms.foldl (fun acc m => acc.flatMap m) [l]

def mAlt (ms : List Matcher) : Matcher := fun l => ms.flatMap (fun m => m l)

/-- Does the fragment match starting exactly at the head (Python
`re.match`)? -/
def matchesAt (m : Matcher) (l : Str) : Bool := !(m l).isEmpty

/-- Does the fragment match anywhere (Python `re.search`)? -/
def searchM (m : Matcher) (l : Str) : Bool :=
  l.tails.any (fun t => matchesAt m t)

/-- Does the fragment match the whole string (Python `re.fullmatch`)? -/
def fullmatchM (m : Matcher) (l : Str) : Bool :=
  (m l).any (fun r => r.isEmpty)

/- ---------------------------------------------------------------------
src/services/sanitize.py
--------------------------------------------------------------------- -/

/-- One pattern of `RIAUX_FORBIDDEN_PATTERNS`, as a predicate on the
upper-cased text (the source upper-cases before searching).  The
`RCS[\s:].*RENNES` pattern needs `.*` and is handled separately. -/
def wsDash (c : Char) : Bool := isPyWs c || c = '-'

def wsDot (c : Char) : Bool := isPyWs c || c = '.'

def wsColon (c : Char) : Bool := isPyWs c || c = ':'

/-- Pattern `RCS[\s:].*RENNES`: after `RCS` and one whitespace-or-colon
character, `RENNES` must occur later on the same line (regex `.` does not
cross a newline). -/
def rcsRennesAt : Str → Bool := fun l =>
  match mCls wsColon (l.drop 3) with
  | [] => false
  | rests => (str "RCS").isPrefixOf l &&
      rests.any (fun r => containsSub (r.takeWhile (fun c => c ≠ '\n')) (str "RENNES"))

def riauxForbiddenMatchers : List Matcher :=
  [ mLit (str "VAUGARNY"),
    mLit (str "35560"),
    mSeq [mLit (str "BAZOUGES"), mCls wsDash, mLit (str "LA"), mCls wsDash, mLit (str "PEROUSE")],
    mSeq [mLit (str "BAZOUGES"), mCls wsDash, mLit (str "LA"), mCls wsDash, mLit (str "PÉROUSE")],
    mSeq [mLit (str "02"), mOpt wsDot, mLit (str "99"), mOpt wsDot, mLit (str "98"),
          mOpt wsDot, mLit (str "04"), mOpt wsDot, mLit (str "50")],
    mSeq [mLit (str "SIRET"), mStar wsColon, mPlus isDig],
    mSeq [mLit (str "NAF"), mStar wsColon, mPlus isDig],
    mSeq [mLit (str "TVA"), mStar wsColon, mLit (str "FR"), mPlus isDig],
    mSeq [mLit (str "GROUPE"), mOpt wsDash, mLit (str "RIAUX")],
    mSeq [mLit (str "RIAUX"), mOpt wsDash, mLit (str "SAS")],
    mSeq [mLit (str "S"), mOpt (fun c => c = '.'), mLit (str "A"), mOpt (fun c => c = '.'),
          mLit (str "S"), mOpt (fun c => c = '.'), mPlus isPyWs, mLit (str "RIAUX")] ]

/-- `sanitize.is_riaux_contaminated`: upper-case the text and search every
forbidden pattern. -/
def is_riaux_contaminated (text : Str) : Bool :=
  let u := upperStr text
  riauxForbiddenMatchers.any (fun m => searchM m u) ||
    u.tails.any (fun t => rcsRennesAt t)

/-- `sanitize.sanitize_client_field`: clear the value when contaminated. -/
def sanitize_client_field (value : Str) : Str :=
  if is_riaux_contaminated value then [] else value

/-- The client-facing slice of the parsed-data dictionary (the fields read
or written by sanitize.py, validator.py and address_sanitizer.py; the
remaining dictionary keys are copied through those functions unchanged and
are not modelled). -/
structure Rec where
  client_nom : Str
  client_contact : Str
  client_adresse1 : Str
  client_adresse2 : Str
  client_adresse : Str
  client_cp : Str
  client_ville : Str
  client_tel : Str
  client_email : Str
  commercial_email : Str
  ref_affaire : Str
  fourniture_ht : Str
  prestations_ht : Str
  total_ht : Str
  pose_amount : Str
  lines : List Str
deriving DecidableEq

def emptyRec : Rec :=
  ⟨[], [], [], [], [], [], [], [], [], [], [], [], [], [], [], []⟩

/-- `sanitize.sanitize_client_data`: sanitize every client field. -/
def sanitize_client_data (r : Rec) : Rec :=
  { r with
    client_nom := sanitize_client_field r.client_nom
    client_contact := sanitize_client_field r.client_contact
    client_adresse1 := sanitize_client_field r.client_adresse1
    client_adresse2 := sanitize_client_field r.client_adresse2
    client_cp := sanitize_client_field r.client_cp
    client_ville := sanitize_client_field r.client_ville
    client_tel := sanitize_client_field r.client_tel
    client_email := sanitize_client_field r.client_email }

/- ---------------------------------------------------------------------
src/services/address_sanitizer.py
--------------------------------------------------------------------- -/

/-- The degenerate last member of `POLLUTION_PATTERNS`
(`TÃ©l\\s*:\\s*02\\s*99\\s*97\\s*45\\s*40`): the double backslashes make
the regex demand literal backslashes followed by runs of the letter `s`.
It is embedded literally (on upper-cased text, per `re.IGNORECASE`). -/
def telDegenerateMatcher : Matcher :=
  mSeq [mLit (str "TÃ©L"), mLit (str "\\"), mStar (fun c => c = 'S'), mLit (str ":"),
        mLit (str "\\"), mStar (fun c => c = 'S'), mLit (str "02"),
        mLit (str "\\"), mStar (fun c => c = 'S'), mLit (str "99"),
        mLit (str "\\"), mStar (fun c => c = 'S'), mLit (str "97"),
        mLit (str "\\"), mStar (fun c => c = 'S'), mLit (str "45"),
        mLit (str "\\"), mStar (fun c => c = 'S'), mLit (str "40")]

/-- `address_sanitizer._contains_pollution` (all patterns searched with
`re.IGNORECASE`, modelled by upper-casing first). -/
def contains_pollution (value : Str) : Bool :=
  let u := upperStr value
  containsSub u (str "VAUGARNY") || containsSub u (str "BAZOUGES") ||
    containsSub u (str "LA PEROUSE") || containsWordSub u (str "35560") ||
    containsSub u (str "RCS RENNES") || containsSub u (str "NAF 1623Z") ||
    containsSub u (str "SAS AU CAPITAL") || searchM telDegenerateMatcher u

def stripPollutionLinesAux (acc : List Str) : List Str → List Str
  | [] => acc
  | l :: t =>
    let n := pyStrip l
    if n = [] then stripPollutionLinesAux acc t
    else if contains_pollution n then stripPollutionLinesAux acc t
    else if acc.contains n then stripPollutionLinesAux acc t
    else stripPollutionLinesAux (acc ++ [n]) t

/-- `address_sanitizer.strip_pollution_lines`: strip, drop empties and
polluted lines, deduplicate preserving order. -/
def strip_pollution_lines (lines : List Str) : List Str :=
  stripPollutionLinesAux [] lines

/-- Group 2 of `CP_VILLE_RE` (`\b(\d{5})\s+(.+)`) once the five digits
matched: greedy `\s+` takes the maximal whitespace run; if nothing
remains, it backtracks so that `.+` still matches one character that is
not a newline. -/
def cpVilleTail (rest : Str) : Option Str :=
  let w := rest.takeWhile isPyWs
  let r := rest.dropWhile isPyWs
  if w = [] then none
  else if r ≠ [] then some (r.takeWhile (fun c => c ≠ '\n'))
  else match (w.drop 1).reverse.find? (fun c => c ≠ '\n') with
       | some c => some [c]
       | none => none

def findCpVilleAux (prev : Option Char) : Str → Option (Str × Str)
  | [] => none
  | c :: t =>
    let l := c :: t
    let d := l.take 5
    let attempt :=
      if boundaryOk prev && d.length = 5 && d.all isDig then
        (cpVilleTail (l.drop 5)).map (fun g2 => (d, g2))
      else none
    attempt <|> findCpVilleAux (some c) t

/-- Leftmost match of `CP_VILLE_RE.search`: the postal-code group and the
raw city group. -/
def findCpVille (l : Str) : Option (Str × Str) := findCpVilleAux none l

/-- `address_sanitizer._cp_ville_is_polluted`. -/
def cp_ville_is_polluted (cp ville : Str) : Bool :=
  if cp = [] && ville = [] then false
  else if cp = str "35560" then true
  else if ville ≠ [] && containsSub (upperStr ville) (str "BAZOUGES") then true
  else contains_pollution cp || contains_pollution ville

def deduceCpVilleAux (cp ville : Str) : List Str → Str × Str
  | [] => (cp, ville)
  | l :: t =>
    if contains_pollution l then deduceCpVilleAux cp ville t
    else match findCpVille l with
      | none => deduceCpVilleAux cp ville t
      | some (ccp, cvRaw) =>
        let cv := pyStrip cvRaw
        if cp_ville_is_polluted ccp cv then deduceCpVilleAux cp ville t
        else
          let cp2 := if cp = [] then ccp else cp
          let ville2 := if ville = [] then cv else ville
          if cp2 ≠ [] && ville2 ≠ [] then (cp2, ville2)
          else deduceCpVilleAux cp2 ville2 t

/-- `address_sanitizer.deduce_cp_ville`. -/
def deduce_cp_ville (lines : List Str) (cp ville : Str) : Str × Str :=
  deduceCpVilleAux cp ville lines

/-- Python `str.splitlines` restricted to the `\n` / `\r\n` / `\r`
terminators (the only ones the pipeline produces). -/
def pySplitlinesAux (cur : Str) : Str → List Str
  | [] => if cur = [] then [] else [cur.reverse]
  | '\n' :: t => cur.reverse :: pySplitlinesAux [] t
  | '\r' :: '\n' :: t => cur.reverse :: pySplitlinesAux [] t
  | '\r' :: t => cur.reverse :: pySplitlinesAux [] t
  | c :: t => pySplitlinesAux (c :: cur) t

def pySplitlines (l : Str) : List Str := pySplitlinesAux [] l

/-- Python `"\n".join`. -/
def joinNl : List Str → Str
  | [] => []
  | [w] => w
  | w :: ws => w ++ '\n' :: joinNl ws

/-- Python `" ".join`. -/
def joinSpace : List Str → Str
  | [] => []
  | [w] => w
  | w :: ws => w ++ ' ' :: joinSpace ws

/-- `address_sanitizer.sanitize_client_address`. -/
def sanitize_client_address (r : Rec) : Rec :=
  let direct_lines := strip_pollution_lines (pySplitlines r.client_adresse)
  let candidate_lines :=
    strip_pollution_lines (direct_lines ++ [r.client_adresse1, r.client_adresse2])
  let cp0 := pyStrip r.client_cp
  let ville0 := pyStrip r.client_ville
  let (cp1, ville1) :=
    if cp_ville_is_polluted cp0 ville0 then (([] : Str), ([] : Str)) else (cp0, ville0)
  let (cp2, ville2) := deduce_cp_ville r.lines cp1 ville1
  let (cp3, ville3) := deduce_cp_ville candidate_lines cp2 ville2
  let (cp, ville) :=
    if cp_ville_is_polluted cp3 ville3 then (([] : Str), ([] : Str)) else (cp3, ville3)
  let address_lines := strip_pollution_lines candidate_lines
  let cp_ville_line := pyStrip (joinSpace ((if cp = [] then [] else [cp]) ++ (if ville = [] then [] else [ville])))
  let address_lines :=
    if cp_ville_line ≠ [] && !address_lines.contains cp_ville_line then
      address_lines ++ [cp_ville_line]
    else address_lines
  { r with
    client_cp := cp
    client_ville := ville
    client_adresse1 := address_lines.headD []
    client_adresse2 := (address_lines.drop 1).headD []
    client_adresse := joinNl address_lines }

/- ---------------------------------------------------------------------
src/services/validator.py
--------------------------------------------------------------------- -/

def RIAUX_TOKENS : List Str :=
  [str "VAUGARNY", str "35560", str "BAZOUGES", str "BAZOUGES LA PEROUSE",
   str "GROUPE RIAUX", str "RIAUX", str "1623Z", str "RCS RENNES",
   str "02 99 97 45 40", str "@GROUPE-RIAUX.FR"]

/-- `validator._contains_riaux`: plain substring test on the upper-cased
value. -/
def contains_riaux (value : Str) : Bool :=
  RIAUX_TOKENS.any (fun tok => containsSub (upperStr value) tok)

/-- `validator._clean_cp`: keep the stripped value only when it is exactly
five digits. -/
def clean_cp (cp : Str) : Str :=
  let cp := pyStrip cp
  if cp.length = 5 && cp.all isDig then cp else []

/-- Words of a string (maximal runs of non-whitespace); used to model
`re.sub(r"\s+", " ", v).strip()`, which equals `" ".join(v.split())`. -/
def pyWordsAux (acc : Str) : Str → List Str
  | [] => if acc = [] then [] else [acc.reverse]
  | c :: t =>
    if isPyWs c then
      if acc = [] then pyWordsAux [] t else acc.reverse :: pyWordsAux [] t
    else pyWordsAux (c :: acc) t

def pyWords (l : Str) : List Str := pyWordsAux [] l

/-- Whitespace collapsing: `re.sub(r"\s+", " ", v).strip()`. -/
def collapseWs (l : Str) : Str := joinSpace (pyWords l)

/-- The amount-shaped test `re.search(r"\d[\d\s]*[.,]\d{2}", v)`. -/
def amountShapeMatcher : Matcher :=
  mSeq [mCls isDig, mStar (fun c => isDig c || isPyWs c),
        mCls (fun c => c = '.' || c = ','), mCls isDig, mCls isDig]

/-- `validator._clean_amount`. -/
def clean_amount (value : Str) : Str :=
  let value := pyStrip (value.map (fun c => if c = '\u202F' then ' ' else c))
  if !searchM amountShapeMatcher value then []
  else collapseWs (value.map (fun c => if c = '.' then ',' else c))

/-- `split(":", 1)[-1]`: the part after the first colon, or the whole
string when there is none. -/
def afterFirstColonOrAll (v : Str) : Str :=
  if v.contains ':' then (v.dropWhile (fun c => c ≠ ':')).drop 1 else v

/-- The `ref_affaire` fix-up step of `validate_and_fix`. -/
def fixRefAffaire (v : Str) : Str :=
  if (str "réf affaire").isPrefixOf (lowerStr v) then pyStrip (afterFirstColonOrAll v)
  else v

def isUpperAlnum (c : Char) : Bool := isLatinUpper c || isDig c

/-- The validator email regex
`^[A-Z0-9._%+-]+@[A-Z0-9.-]+\.[A-Z]{2,}$` with `re.IGNORECASE`
(modelled by upper-casing first), used with `fullmatch`. -/
def emailMatcher : Matcher :=
  mSeq [mPlus (fun c => isUpperAlnum c || c ∈ ['.', '_', '%', '+', '-']),
        mLit (str "@"),
        mPlus (fun c => isUpperAlnum c || c ∈ ['.', '-']),
        mLit (str "."),
        mCls isLatinUpper, mCls isLatinUpper, mStar isLatinUpper]

def validEmail (v : Str) : Bool := fullmatchM emailMatcher (upperStr v)

/-- The email fix-up step of `validate_and_fix`: a non-empty value that is
not a syntactically valid email is cleared. -/
def fixEmail (v : Str) : Str :=
  if v ≠ [] && !validEmail v then [] else v

/-- `validator.validate_and_fix` (the returned record; the accompanying
warning list does not affect the record and is not modelled). -/
def validate_and_fix (r : Rec) : Rec :=
  let s := sanitize_client_address r
  let s := { s with
    client_nom := if contains_riaux s.client_nom then [] else s.client_nom
    client_adresse1 := if contains_riaux s.client_adresse1 then [] else s.client_adresse1
    client_adresse2 := if contains_riaux s.client_adresse2 then [] else s.client_adresse2
    client_ville := if contains_riaux s.client_ville then [] else s.client_ville
    client_cp := if contains_riaux s.client_cp then [] else s.client_cp }
  let s := { s with client_cp := clean_cp s.client_cp }
  -- source lines 54-55: when the cleaned cp is empty, client_ville is
  -- reassigned to itself (a no-op on the record)
  let s := { s with
    fourniture_ht := clean_amount s.fourniture_ht
    prestations_ht := clean_amount s.prestations_ht
    total_ht := clean_amount s.total_ht
    pose_amount := clean_amount s.pose_amount }
  let s := { s with ref_affaire := fixRefAffaire s.ref_affaire }
  { s with
    client_email := fixEmail s.client_email
    commercial_email := fixEmail s.commercial_email }

/- ---------------------------------------------------------------------
Digit strings and a model of Python Decimal
--------------------------------------------------------------------- -/

def digitChar : Nat → Char
  | 0 => '0' | 1 => '1' | 2 => '2' | 3 => '3' | 4 => '4'
  | 5 => '5' | 6 => '6' | 7 => '7' | 8 => '8' | _ => '9'

def digitVal (c : Char) : Nat := c.toNat - 48

def natOfDigits (l : Str) : Nat := l.foldl (fun n c => n * 10 + digitVal c) 0

def natToDigitsAux : Nat → Nat → Str
  | 0, _ => []
  | f + 1, n => if n < 10 then [digitChar n] else natToDigitsAux f (n / 10) ++ [digitChar (n % 10)]

/-- Decimal digits of `n`, most significant first (never empty). -/
def natToDigits (n : Nat) : Str := natToDigitsAux (n + 1) n

/-- Result of parsing a string with `decimal.Decimal`: a syntax error, one
of the special values, or a finite value `±coeff · 10^eAdj`. -/
inductive DecP where
  | invalid : DecP
  | nanQ : DecP
  | nanS : DecP
  | infV : DecP
  | finite (neg : Bool) (coeff : Nat) (eAdj : Int) : DecP
deriving DecidableEq

def parseDecSign (l : Str) : Bool × Str :=
  match l with
  | c :: t => if c = '-' then (true, t) else if c = '+' then (false, t) else (false, l)
  | [] => (false, l)

def parseDecExp (neg : Bool) (ds : Str) (sc : Int) : Str → DecP
  | [] => .finite neg (natOfDigits ds) sc
  | e :: t =>
    if e = 'e' || e = 'E' then
      let (eNeg, t1) := parseDecSign t
      let eds := t1.takeWhile isDig
      if eds = [] || t1.dropWhile isDig ≠ [] then .invalid
      else .finite neg (natOfDigits ds)
        (sc + (if eNeg then -(natOfDigits eds : Int) else (natOfDigits eds : Int)))
    else .invalid

def parseDecBody (neg : Bool) (s1 : Str) : DecP :=
  let ds1 := s1.takeWhile isDig
  let r1 := s1.dropWhile isDig
  match r1 with
  | '.' :: r2 =>
    let ds2 := r2.takeWhile isDig
    let r3 := r2.dropWhile isDig
    if ds1 = [] && ds2 = [] then .invalid
    else parseDecExp neg (ds1 ++ ds2) (-(ds2.length : Int)) r3
  | _ => if ds1 = [] then .invalid else parseDecExp neg ds1 0 r1

/-- Parse per the `decimal.Decimal` constructor grammar: optional
surrounding whitespace, underscores removed, optional sign, then either a
plain numeral with an optional fraction and exponent, or one of
`inf`/`infinity`/`nan`/`snan` (case-insensitive, `nan`/`snan` with an
optional diagnostic numeral). -/
def parseDecimal (l : Str) : DecP :=
  let s := (pyStrip l).filter (fun c => c ≠ '_')
  if s = [] then .invalid
  else
    let (neg, s1) := parseDecSign s
    let u := upperStr s1
    if u = str "INF" || u = str "INFINITY" then .infV
    else if (str "NAN").isPrefixOf u && (u.drop 3).all isDig then .nanQ
    else if (str "SNAN").isPrefixOf u && (u.drop 4).all isDig then .nanS
    else parseDecBody neg s1

/-- `Decimal.quantize(Decimal("0.01"))` on `coeff · 10^eAdj ≥ 0`: the
resulting number of cents, rounded half-up (`halfEven = false`, the
explicit `ROUND_HALF_UP` of extraction_normalizer) or half-even (the
context default used by data_normalizer); `none` when the result would
need more than the 28 coefficient digits of the default context, in which
case the Python call raises `InvalidOperation`. -/
def quantCents (halfEven : Bool) (coeff : Nat) (eAdj : Int) : Option Nat :=
  let m := eAdj + 2
  let cents :=
    if 0 ≤ m then coeff * 10 ^ m.toNat
    else
      let den := 10 ^ (-m).toNat
      let q := coeff / den
      let r := coeff % den
      if 2 * r > den then q + 1
      else if 2 * r < den then q
      else if halfEven then (if q % 2 = 1 then q + 1 else q) else q + 1
  if (natToDigits cents).length ≤ 28 then some cents else none

def chunks3Aux : Nat → Str → List Str
  | _, [] => []
  | 0, l => [l]
  | f + 1, l =>
    if l.length ≤ 3 then [l]
    else chunks3Aux f (l.take (l.length - 3)) ++ [l.drop (l.length - 3)]

/-- The grouping loop shared by both formatters: split into groups of
three from the right and join with single spaces (`"0"` for an empty
input, per the `if groups else "0"` guard of extraction_normalizer). -/
def groupThrees (ds : Str) : Str :=
  if ds = [] then ['0'] else joinSpace (chunks3Aux ds.length ds)

def twoDigits (m : Nat) : Str := [digitChar (m / 10), digitChar (m % 10)]

/-- Result of a Python call that can raise: a returned string or an
uncaught exception. -/
inductive PyRes where
  | ok : Str → PyRes
  | exn : PyRes
deriving DecidableEq

/- ---------------------------------------------------------------------
src/services/extraction_normalizer.py
--------------------------------------------------------------------- -/

/-- Rendering step of `extraction_normalizer._format_amount`: the sign is
taken from `quantized < 0` (so a negative zero prints unsigned), the
integer digits are grouped in threes. -/
def renderAmount (neg : Bool) (cents : Nat) : Str :=
  (if neg && cents ≠ 0 then ['-'] else []) ++ groupThrees (natToDigits (cents / 100))
    ++ ',' :: twoDigits (cents % 100)

/-- The character cleanup of `_format_amount`: narrow and ordinary
no-break spaces and spaces deleted, commas turned into dots. -/
def faClean (cleaned : Str) : Str :=
  (cleaned.filter (fun c => !(c ∈ [' ', '\u202F', '\u00A0']))).map
    (fun c => if c = ',' then '.' else c)

/-- `extraction_normalizer._format_amount`.  The `Decimal` construction is
inside `try`, but `quantize` and the subsequent `split(".")` unpacking are
not: special values and coefficients beyond the 28-digit context
precision escape as exceptions. -/
def format_amount (value : Str) : PyRes :=
  let cleaned := pyStrip value
  if cleaned = [] then .ok []
  else
    match parseDecimal (faClean cleaned) with
    | .invalid => .ok []
    | .nanQ => .exn
    | .nanS => .exn
    | .infV => .exn
    | .finite neg coeff eAdj =>
      match quantCents false coeff eAdj with
      | none => .exn
      | some cents => .ok (renderAmount neg cents)

/-- `extraction_normalizer._normalize_yymm`. -/
def normalizeYymm (value : Str) : Str :=
  if value = [] then []
  else
    let v := pyStrip value
    if v.length = 6 && v.all isDig && (str "20").isPrefixOf v then v.drop 2
    else if v.length = 4 && v.all isDig then v
    else if v.length > 4 && (v.drop (v.length - 4)).all isDig then v.drop (v.length - 4)
    else v

/-- Match `SRX(\d{4})([A-Z]{3})(\d{6})` at the head of the input.
`ci` switches `re.IGNORECASE`; `gaps` inserts the `\s*` separators of the
rule_based_parser variant. -/
def matchSrxAt (ci gaps : Bool) (l : Str) : Option (Str × Str × Str) :=
  match l with
  | c1 :: c2 :: c3 :: rest =>
    let up := fun c => if ci then pyUpper c else c
    if up c1 = 'S' && up c2 = 'R' && up c3 = 'X' then
      let letterOk := fun c => if ci then isLatin c else isLatinUpper c
      let r0 := if gaps then rest.dropWhile isPyWs else rest
      let y := r0.take 4
      let r1 := r0.drop 4
      let r1g := if gaps then r1.dropWhile isPyWs else r1
      let t := r1g.take 3
      let r2 := r1g.drop 3
      let r2g := if gaps then r2.dropWhile isPyWs else r2
      let n := r2g.take 6
      if y.length = 4 && y.all isDig && t.length = 3 && t.all letterOk &&
          n.length = 6 && n.all isDig then
        some (y, t, n)
      else none
    else none
  | _ => none

def searchSrx (ci gaps : Bool) : Str → Option (Str × Str × Str)
  | [] => none
  | c :: t => matchSrxAt ci gaps (c :: t) <|> searchSrx ci gaps t

/-- `extraction_normalizer._extract_srx`: first candidate whose
space-stripped text matches the (case-insensitive, gap-free) SRX shape. -/
def extract_srx : List Str → Option (Str × Str × Str)
  | [] => none
  | p :: t => searchSrx true false (p.filter (fun c => c ≠ ' ')) <|> extract_srx t

/-- The reference slice of the data dictionary handled by
`extraction_normalizer._normalize_srx`: the three reference fields plus
the remaining string values of the dictionary in iteration order. -/
structure SrxData where
  devis_annee_mois : Str
  devis_type : Str
  devis_num : Str
  others : List Str
deriving DecidableEq

/-- `extraction_normalizer._normalize_srx`.  In the no-match branch the
source assigns `devis_num` only when the stripped value is six digits,
leaving the original dictionary value in place otherwise. -/
def normalize_srx (d : SrxData) : SrxData :=
  let candidates :=
    d.devis_num :: d.devis_annee_mois :: d.devis_type :: d.devis_num :: d.others
  match extract_srx candidates with
  | some (y, t, n) =>
    { d with devis_annee_mois := normalizeYymm y, devis_type := t, devis_num := n }
  | none =>
    let a := normalizeYymm (pyStrip d.devis_annee_mois)
    let ty := pyStrip d.devis_type
    let n := pyStrip d.devis_num
    { d with
      devis_annee_mois := a
      devis_type := if ty ≠ [] then upperStr ty else []
      devis_num := if n.length = 6 && n.all isDig then n else d.devis_num }

/- ---------------------------------------------------------------------
src/services/data_normalizer.py (_format_amount_fr)
--------------------------------------------------------------------- -/

/-- Remove every occurrence of the three-character mojibake sequence
`â‚¬` that `_format_amount_fr` strips in place of the euro sign. -/
def removeEuroMoji : Str → Str
  | 'â' :: '‚' :: '¬' :: t => removeEuroMoji t
  | c :: t => c :: removeEuroMoji t
  | [] => []

/-- Rendering step of `_format_amount_fr`: `str(dec)` keeps the sign (even
on a negative zero) and the grouping loop counts the sign character as
part of the integer digits. -/
def renderAmountFr (neg : Bool) (cents : Nat) : Str :=
  groupThrees ((if neg then ['-'] else []) ++ natToDigits (cents / 100))
    ++ ',' :: twoDigits (cents % 100)

/-- `data_normalizer._format_amount_fr` on a string argument.  Both the
`Decimal` construction and the `quantize` call are inside `try`, so a
parse failure or a precision overflow returns the cleaned text; a quiet
NaN survives `quantize` and then crashes the `split(".")` unpacking. -/
def format_amount_fr (value : Str) : PyRes :=
  if value = [] then .ok []
  else
    let text := pyStrip value
    let text := pyStrip ((removeEuroMoji text).map (fun c => if c = '\u00A0' then ' ' else c))
    let cleaned := (text.filter (fun c => c ≠ ' ')).map (fun c => if c = ',' then '.' else c)
    match parseDecimal cleaned with
    | .invalid => .ok text
    | .nanS => .ok text
    | .infV => .ok text
    | .nanQ => .exn
    | .finite neg coeff eAdj =>
      match quantCents true coeff eAdj with
      | none => .ok text
      | some cents => .ok (renderAmountFr neg cents)

/- ---------------------------------------------------------------------
src/services/devis_parser.py (pure slices)
--------------------------------------------------------------------- -/

/-- `DevisParser._normalize_amount`: narrow no-break spaces to spaces,
whitespace collapsed, then a dot is dropped as a thousands separator when
a comma is also present, or turned into the decimal comma otherwise. -/
def dp_normalize_amount (v : Str) : Str :=
  let v := collapseWs (v.map (fun c => if c = '\u202F' then ' ' else c))
  let v := if v.contains ',' && v.contains '.' then v.filter (fun c => c ≠ '.') else v
  if v.contains '.' then v.map (fun c => if c = '.' then ',' else c) else v

/-- `AMOUNT_RE` = `([0-9][0-9\s ]*[\.,][0-9]{2})`: after the greedy
digit/whitespace run, a separator and two digits must follow. -/
def amtSepOk : Str → Option Str
  | s :: d1 :: d2 :: rest =>
    if (s = '.' || s = ',') && isDig d1 && isDig d2 then some rest else none
  | _ => none

/-- Leftmost-longest `AMOUNT_RE` match at the head: the matched text and
the remainder.  The greedy star backtracks, so the longest run whose
continuation matches wins. -/
def amtMatchAt (l : Str) : Option (Str × Str) :=
  match l with
  | c :: t =>
    if isDig c then
      match (mStar (fun x => isDig x || isPyWs x) t).reverse.findSome?
          (fun r => amtSepOk r) with
      | some rest => some (l.take (l.length - rest.length), rest)
      | none => none
    else none
  | [] => none

def amtFindAllAux : Nat → Str → List Str
  | 0, _ => []
  | f + 1, l =>
    match amtMatchAt l with
    | some (m, rest) => m :: amtFindAllAux f rest
    | none =>
      match l with
      | [] => []
      | _ :: t => amtFindAllAux f t

/-- `AMOUNT_RE.findall`: scan left to right, resuming after each match. -/
def amtFindAll (l : Str) : List Str := amtFindAllAux (l.length + 1) l

/-- A match of `([0-9][0-9\s ]*[\.,][0-9]{2})\s*€` at the head: the
captured amount and the remainder after the euro sign. -/
def euroMatchAt (l : Str) : Option (Str × Str) :=
  match l with
  | c :: t =>
    if isDig c then
      (mStar (fun x => isDig x || isPyWs x) t).reverse.findSome? (fun r =>
        match amtSepOk r with
        | some rest =>
          match rest.dropWhile isPyWs with
          | '€' :: r2 => some (l.take (l.length - rest.length), r2)
          | _ => none
        | none => none)
    else none
  | [] => none

def euroFindAllAux : Nat → Str → List Str
  | 0, _ => []
  | f + 1, l =>
    match euroMatchAt l with
    | some (m, rest) => m :: euroFindAllAux f rest
    | none =>
      match l with
      | [] => []
      | _ :: t => euroFindAllAux f t

def euroFindAll (l : Str) : List Str := euroFindAllAux (l.length + 1) l

def poseAmtPick : List Str → Str
  | [] => []
  | m :: t =>
    let n := dp_normalize_amount m
    if n ≠ str "1,00" && n ≠ str "1.00" then n else poseAmtPick t

/-- `DevisParser._extract_pose_amount`: the last euro-suffixed amount wins
unfiltered; otherwise the last plain amount that is not the `1,00`
placeholder. -/
def extract_pose_amount (line : Str) : Str :=
  let euros := euroFindAll line
  if euros ≠ [] then dp_normalize_amount ((euros.reverse).headD [])
  else poseAmtPick (amtFindAll line).reverse

def findPoseDetailsAux (saw : Bool) : List Str → Bool × Str
  | [] => (false, [])
  | l :: t =>
    if containsSub (upperStr l) (str "PRESTATIONS") then findPoseDetailsAux true t
    else if !saw then findPoseDetailsAux false t
    else if containsWordSub (upperStr l) (str "POSE") then
      let a := extract_pose_amount l
      if a ≠ [] then (true, a) else findPoseDetailsAux saw t
    else findPoseDetailsAux saw t

/-- `DevisParser._find_pose_details`: wait for a `PRESTATIONS` line, then
take the first whole-word `pose` line with a non-empty extracted amount. -/
def find_pose_details (lines : List Str) : Bool × Str :=
  findPoseDetailsAux false lines

/-- One line of `DevisParser._find_devis_reference`: only lines containing
`DEVIS` are considered, spaces are removed, and the (case-sensitive)
SRX pattern is searched; the source returns `(yymm, num, type)`. -/
def findDevisRefLine (l : Str) : Option (Str × Str × Str) :=
  if containsSub (upperStr l) (str "DEVIS") then
    match searchSrx false false (l.filter (fun c => c ≠ ' ')) with
    | some (y, t, n) => some (y, n, t)
    | none => none
  else none

def find_devis_reference : List Str → Option (Str × Str × Str)
  | [] => none
  | l :: ls => findDevisRefLine l <|> find_devis_reference ls

/-- The reference triple `(devis_annee_mois, devis_num, devis_type)` of a
`DevisParser.parse` run: it is computed solely by `_find_devis_reference`
over the document lines — the `path` argument of `parse` is never
consulted for the reference, so the filename parameter is unused. -/
def parse_reference_fields (_filename : Str) (lines : List Str) : Str × Str × Str :=
  match find_devis_reference lines with
  | some r => r
  | none => ([], [], [])

/- ---------------------------------------------------------------------
src/services/rule_based_parser.py (reference and client-name slices)
--------------------------------------------------------------------- -/

/-- `RuleBasedParser._parse_reference`: first line matching
`SRX\s*(\d{4})\s*([A-Z]{3})\s*(\d{6})` (case-insensitive) yields the
`(devis_annee_mois, devis_type, devis_num)` groups. -/
def rule_parse_reference : List Str → Option (Str × Str × Str)
  | [] => none
  | l :: t => searchSrx true true l <|> rule_parse_reference t

def RIAUX_BLACKLIST : List Str :=
  [str "VAUGARNY", str "35560", str "BAZOUGES", str "BAZOUGES LA PEROUSE",
   str "GROUPE RIAUX", str "RIAUX", str "1623Z", str "RCS RENNES",
   str "02 99 97 45 40"]

/-- `RuleBasedParser._is_blacklisted`. -/
def is_blacklisted (v : Str) : Bool :=
  RIAUX_BLACKLIST.any (fun tok => containsSub (upperStr v) tok)

def anyNonNl (c : Char) : Bool := c ≠ '\n'

/-- The backward-scan noise pattern
`(devis|r.?alis[ée]? par|date du devis|r.?f affaire)` (case-insensitive,
searched anywhere in the candidate). -/
def clientNoiseMatcher : Matcher :=
  mAlt [mLit (str "DEVIS"),
        mSeq [mLit (str "R"), mOpt anyNonNl, mLit (str "ALIS"),
              mOpt (fun c => c = 'É' || c = 'E'), mLit (str " PAR")],
        mLit (str "DATE DU DEVIS"),
        mSeq [mLit (str "R"), mOpt anyNonNl, mLit (str "F AFFAIRE")]]

/-- The forward-scan stop pattern
`(t[ée]l|fax|contact commercial|e[- ]?mail|mail|validit)`, anchored at the
start of the line (`re.match`). -/
def clientStopMatcher : Matcher :=
  mAlt [mSeq [mLit (str "T"), mCls (fun c => c = 'É' || c = 'E'), mLit (str "L")],
        mLit (str "FAX"),
        mLit (str "CONTACT COMMERCIAL"),
        mSeq [mLit (str "E"), mOpt (fun c => c = '-' || c = ' '), mLit (str "MAIL")],
        mLit (str "MAIL"),
        mLit (str "VALIDIT")]

def isClientStop (l : Str) : Bool := matchesAt clientStopMatcher (upperStr l)

def backwardNom : List Str → Str
  | [] => []
  | l :: t =>
    if is_blacklisted l then backwardNom t
    else if searchM clientNoiseMatcher (upperStr l) then backwardNom t
    else if l ≠ [] then l
    else backwardNom t

def forwardNom : List Str → Str
  | [] => []
  | l :: t =>
    if isClientStop l then []
    else if is_blacklisted l then forwardNom t
    else if l ≠ [] then l
    else forwardNom t

def findAnchorIdx : List Str → Option Nat
  | [] => none
  | l :: t =>
    if containsSub (upperStr l) (str "CODE CLIENT") then some 0
    else (findAnchorIdx t).map (fun n => n + 1)

/-- The client-name selection of `RuleBasedParser._extract_client_block`
(source lines 129-151): locate the `code client` anchor, scan backward
skipping blacklisted and noise lines, and fall back to a forward scan that
stops at the stop pattern and skips blacklisted lines.  (The source
assigns the name once and lets the loop idle on; taking the first valid
candidate is observationally the same.) -/
def extract_client_nom (lines : List Str) : Str :=
  match findAnchorIdx lines with
  | none => []
  | some idx =>
    let back := backwardNom (lines.take idx).reverse
    if back ≠ [] then back else forwardNom (lines.drop (idx + 1))

/- ---------------------------------------------------------------------
src/main.py (_merge_data)
--------------------------------------------------------------------- -/

/-- `MainWindow._merge_data`: dictionaries are modelled as maps from keys
to optional string values (each dictionary key is written at most once, so
iteration order is irrelevant); the Python emptiness test
`value in ("", None, [])` collapses to the empty string in this model. -/
def merge_data (base override : Str → Option Str) : Str → Option Str :=
  fun k =>
    match override k with
    | some v => if v = [] then base k else some v
    | none => base k

/- ---------------------------------------------------------------------
Concrete inputs used by the counterexample and witness theorems
--------------------------------------------------------------------- -/

/-- A record whose client phone is the issuer switchboard number listed in
`validator.RIAUX_TOKENS`. -/
def telCexRec : Rec := { emptyRec with client_tel := str "02 99 97 45 40" }

/-- A record with a malformed, polluted postal code and an address line
from which a clean postal code can be deduced. -/
def cpCexRec : Rec :=
  { emptyRec with client_cp := str "VAUGARNY 1", lines := [str "77100 PARIS"] }

/-- A record with a malformed postal code and a polluted city. -/
def villeCexRec : Rec :=
  { emptyRec with client_cp := str "ABC", client_ville := str "BAZOUGES" }

/-- A one-key anchor-based map carrying a non-empty value. -/
def mergeBaseCex : Str → Option Str :=
  fun k => if k = str "client_nom" then some (str "A") else none

/-- A one-key alternative-producer map carrying a different non-empty
value for the same key. -/
def mergeOverrideCex : Str → Option Str :=
  fun k => if k = str "client_nom" then some (str "B") else none

/-- Build the reference slice of the dictionary produced by
`RuleBasedParser.parse`: `_parse_reference` either fills all three fields
from one match or defaults all three to empty. -/
def mkSrxData (ref : Option (Str × Str × Str)) (others : List Str) : SrxData :=
  match ref with
  | some (y, t, n) => ⟨y, t, n, others⟩
  | none => ⟨[], [], [], others⟩

/-- All-or-nothing shape of the three reference fields. -/
def srxAllOrNothing (d : SrxData) : Prop :=
  (d.devis_annee_mois ≠ [] ∧ d.devis_type ≠ [] ∧ d.devis_num ≠ []) ∨
    (d.devis_annee_mois = [] ∧ d.devis_type = [] ∧ d.devis_num = [])

instance (d : SrxData) : Decidable (srxAllOrNothing d) := by
  unfold srxAllOrNothing; infer_instance

/- ---------------------------------------------------------------------
Pointwise character facts
--------------------------------------------------------------------- -/

theorem isDig_cases {c : Char} (h : isDig c = true) :
    c = '0' ∨ c = '1' ∨ c = '2' ∨ c = '3' ∨ c = '4' ∨ c = '5' ∨ c = '6' ∨
      c = '7' ∨ c = '8' ∨ c = '9' := by
  simpa [isDig] using h

theorem isDig_not_ws {c : Char} (h : isDig c = true) : isPyWs c = false := by
  rcases isDig_cases h with rfl | rfl | rfl | rfl | rfl | rfl | rfl | rfl | rfl | rfl <;> decide

theorem isDig_pyUpper {c : Char} (h : isDig c = true) : pyUpper c = c := by
  rcases isDig_cases h with rfl | rfl | rfl | rfl | rfl | rfl | rfl | rfl | rfl | rfl <;> decide

theorem isDig_ne {c : Char} (h : isDig c = true) :
    c ≠ '-' ∧ c ≠ '+' ∧ c ≠ '.' ∧ c ≠ ',' ∧ c ≠ '_' ∧ c ≠ 'I' ∧ c ≠ 'N' ∧
      c ≠ 'S' ∧ c ≠ ' ' ∧ c ≠ '\u202F' ∧ c ≠ '\u00A0' := by
  rcases isDig_cases h with rfl | rfl | rfl | rfl | rfl | rfl | rfl | rfl | rfl | rfl <;> decide

theorem pyWs_cases {c : Char} (h : isPyWs c = true) :
    c = ' ' ∨ c = '\t' ∨ c = '\n' ∨ c = '\r' ∨ c = '\x0b' ∨ c = '\x0c' ∨
      c = '\x1c' ∨ c = '\x1d' ∨ c = '\x1e' ∨ c = '\x1f' ∨ c = '\u0085' ∨
      c = ' ' ∨ c = ' ' := by
  simpa [isPyWs, pyWsChars] using h

theorem pyWs_not_latin {c : Char} (h : isPyWs c = true) : isLatin c = false := by
  rcases pyWs_cases h with rfl | rfl | rfl | rfl | rfl | rfl | rfl | rfl | rfl | rfl | rfl | rfl | rfl <;> decide

theorem isLatin_not_ws {c : Char} (h : isLatin c = true) : isPyWs c = false := by
  by_cases hw : isPyWs c = true
  · rw [pyWs_not_latin hw] at h; exact absurd h (by simp)
  · simpa using hw

theorem digitChar_spec (n : Nat) (h : n < 10) :
    isDig (digitChar n) = true ∧ digitVal (digitChar n) = n := by
  interval_cases n <;> exact ⟨by decide, by decide⟩

/- ---------------------------------------------------------------------
List utilities
--------------------------------------------------------------------- -/

theorem map_noop {α : Type} {f : α → α} :
    ∀ {l : List α}, (∀ c ∈ l, f c = c) → l.map f = l
  | [], _ => rfl
  | c :: t, h => by
    simp only [List.map_cons, h c (by simp)]
    rw [map_noop (fun x hx => h x (by simp [hx]))]

theorem dropWhile_noop {p : Char → Bool} :
    ∀ {l : Str}, (∀ c, l.head? = some c → p c = false) → l.dropWhile p = l
  | [], _ => rfl
  | c :: t, h => by simp [List.dropWhile_cons, h c rfl]

theorem pyStrip_eq_self {l : Str} (h : ∀ c ∈ l, isPyWs c = false) : pyStrip l = l := by
  unfold pyStrip
  have h1 : l.dropWhile isPyWs = l :=
    dropWhile_noop (fun c hc => h c (by
      cases l with
      | nil => simp at hc
      | cons a t => simp at hc; simp [hc]))
  rw [h1]
  have h2 : l.reverse.dropWhile isPyWs = l.reverse :=
    dropWhile_noop (fun c hc => h c (by
      have : c ∈ l.reverse := by
        cases hr : l.reverse with
        | nil => simp [hr] at hc
        | cons a t => rw [hr] at hc; simp at hc; simp [hr, hc]
      simpa using this))
  rw [h2, List.reverse_reverse]

theorem takeWhile_all_append {p : Char → Bool} :
    ∀ {l : Str} (r : Str), (∀ c ∈ l, p c = true) →
      (∀ c, r.head? = some c → p c = false) →
      (l ++ r).takeWhile p = l ∧ (l ++ r).dropWhile p = r
  | [], r, _, hr => by
    constructor
    · cases r with
      | nil => rfl
      | cons a t => simp [List.takeWhile_cons, hr a rfl]
    · cases r with
      | nil => rfl
      | cons a t => simp [List.dropWhile_cons, hr a rfl]
  | c :: t, r, h, hr => by
    have ih := takeWhile_all_append (l := t) r (fun x hx => h x (by simp [hx])) hr
    simp only [List.cons_append, List.takeWhile_cons, List.dropWhile_cons,
      h c (by simp), ih.1, ih.2, and_self, if_true]

theorem containsSub_iff {hay needle : Str} :
    containsSub hay needle = true ↔ needle <:+: hay := by
  induction hay with
  | nil =>
    simp only [containsSub, List.isEmpty_iff]
    constructor
    · intro h; simp [h]
    · intro h; simpa using List.eq_nil_of_infix_nil h
  | cons a t ih =>
    simp only [containsSub, Bool.or_eq_true, List.isPrefixOf_iff_prefix, ih]
    constructor
    · rintro (h | h)
      · exact h.isInfix
      · exact h.trans (List.infix_cons (List.infix_refl t))
    · intro h
      rcases List.infix_cons_iff.mp h with h | h
      · exact Or.inl h
      · exact Or.inr h

theorem containsSub_mono {h1 h2 needle : Str} (hsub : h1 <:+: h2)
    (h : containsSub h1 needle = true) : containsSub h2 needle = true :=
  containsSub_iff.mpr ((containsSub_iff.mp h).trans hsub)

theorem pyStrip_sublist (l : Str) : pyStrip l <:+: l := by
  unfold pyStrip
  have s1 : l.dropWhile isPyWs <:+ l := List.dropWhile_suffix isPyWs
  have s2 : (l.dropWhile isPyWs).reverse.dropWhile isPyWs <:+
      (l.dropWhile isPyWs).reverse := List.dropWhile_suffix isPyWs
  have p2 : ((l.dropWhile isPyWs).reverse.dropWhile isPyWs).reverse <+:
      l.dropWhile isPyWs := by
    have := List.reverse_prefix.mpr s2
    simpa using this
  exact (p2.isInfix).trans s1.isInfix

theorem infix_map {α β : Type} (f : α → β) {l1 l2 : List α} (h : l1 <:+: l2) :
    l1.map f <:+: l2.map f := by
  obtain ⟨s, t, rfl⟩ := h
  exact ⟨s.map f, t.map f, by simp⟩

/- ---------------------------------------------------------------------
Digit-string lemmas
--------------------------------------------------------------------- -/

theorem natOfDigits_append_single (l : Str) (c : Char) :
    natOfDigits (l ++ [c]) = natOfDigits l * 10 + digitVal c := by
  simp [natOfDigits, List.foldl_append]

theorem natToDigitsAux_spec :
    ∀ f n, n < f →
      natToDigitsAux f n ≠ [] ∧ (∀ c ∈ natToDigitsAux f n, isDig c = true) ∧
        natOfDigits (natToDigitsAux f n) = n := by
  intro f
  induction f with
  | zero => intro n h; omega
  | succ f ih =>
    intro n h
    unfold natToDigitsAux
    by_cases h10 : n < 10
    · simp only [h10, if_true]
      refine ⟨by simp, ?_, ?_⟩
      · intro c hc
        simp at hc
        rw [hc]
        exact (digitChar_spec n h10).1
      · simp [natOfDigits, (digitChar_spec n h10).2]
    · have hn : 0 < n := by omega
      have hdiv : n / 10 < n := Nat.div_lt_self hn (by omega)
      have hfd : n / 10 < f := by omega
      obtain ⟨hne, hdig, hval⟩ := ih (n / 10) hfd
      simp only [h10, if_false]
      refine ⟨by simp, ?_, ?_⟩
      · intro c hc
        rcases List.mem_append.mp hc with hc | hc
        · exact hdig c hc
        · simp at hc
          rw [hc]
          exact (digitChar_spec (n % 10) (Nat.mod_lt n (by omega))).1
      · rw [natOfDigits_append_single, hval,
          (digitChar_spec (n % 10) (Nat.mod_lt n (by omega))).2]
        omega

theorem natToDigits_spec (n : Nat) :
    natToDigits n ≠ [] ∧ (∀ c ∈ natToDigits n, isDig c = true) ∧
      natOfDigits (natToDigits n) = n :=
  natToDigitsAux_spec (n + 1) n (Nat.lt_succ_self n)

theorem natOfDigits_foldl_init (l : Str) :
    ∀ a : Nat, l.foldl (fun n c => n * 10 + digitVal c) a =
      a * 10 ^ l.length + natOfDigits l := by
  induction l with
  | nil => intro a; simp [natOfDigits]
  | cons c t ih =>
    intro a
    simp only [List.foldl_cons, List.length_cons]
    rw [ih (a * 10 + digitVal c)]
    have h2 : natOfDigits (c :: t) = digitVal c * 10 ^ t.length + natOfDigits t := by
      simp only [natOfDigits, List.foldl_cons]
      rw [ih (0 * 10 + digitVal c)]
      simp [natOfDigits]
    rw [h2]
    ring

theorem natOfDigits_append (l1 l2 : Str) :
    natOfDigits (l1 ++ l2) = natOfDigits l1 * 10 ^ l2.length + natOfDigits l2 := by
  simp only [natOfDigits, List.foldl_append]
  exact natOfDigits_foldl_init l2 (natOfDigits l1)

/- ---------------------------------------------------------------------
Contamination lemmas
--------------------------------------------------------------------- -/

theorem contains_riaux_mono {l1 l2 : Str} (hinf : l1 <:+: l2)
    (h : contains_riaux l1 = true) : contains_riaux l2 = true := by
  simp only [contains_riaux, List.any_eq_true] at h ⊢
  obtain ⟨tok, htok, hc⟩ := h
  exact ⟨tok, htok, containsSub_mono (infix_map pyUpper hinf) hc⟩

theorem contains_riaux_clear (v : Str) :
    contains_riaux (if contains_riaux v then [] else v) = false := by
  by_cases h : contains_riaux v = true
  · simp [h]
    decide
  · rw [if_neg (by simp [h])]
    simpa using h

theorem contains_riaux_clean_cp {v : Str} (h : contains_riaux v = false) :
    contains_riaux (clean_cp v) = false := by
  unfold clean_cp
  by_cases hc : (pyStrip v).length = 5 ∧ (pyStrip v).all isDig = true
  · rw [if_pos (by simp [hc.1, hc.2])]
    by_contra hx
    simp only [Bool.not_eq_false] at hx
    have := contains_riaux_mono (pyStrip_sublist v) hx
    rw [h] at this
    exact absurd this (by simp)
  · rw [if_neg (by simpa [Decidable.not_and_iff_or_not] using hc)]
    decide

theorem sanitize_client_field_clean (v : Str) :
    is_riaux_contaminated (sanitize_client_field v) = false := by
  unfold sanitize_client_field
  by_cases h : is_riaux_contaminated v = true
  · simp [h]
    decide
  · rw [if_neg (by simp [h])]
    simpa using h

theorem clean_cp_shape (v : Str) :
    clean_cp v = [] ∨ ((clean_cp v).length = 5 ∧ (clean_cp v).all isDig = true) := by
  unfold clean_cp
  by_cases hc : ((pyStrip v).length = 5 && (pyStrip v).all isDig) = true
  · rw [if_pos hc]
    simp only [Bool.and_eq_true] at hc
    exact Or.inr ⟨by simpa using hc.1, hc.2⟩
  · rw [if_neg hc]
    exact Or.inl rfl

/- ---------------------------------------------------------------------
Claim theorems
--------------------------------------------------------------------- -/

/-- C2: for the line sequence `["Code client", "RIAUX", "Client Final",
"123 Rue test", "Contact commercial"]` the counterparty-name extraction
of the rule-based parser returns `"Client Final"`: the backward search
from the anchor finds nothing, and the forward search skips the
blacklisted `"RIAUX"` line and takes the first remaining valid line. -/
theorem C2_client_name_extraction :
    extract_client_nom
      [str "Code client", str "RIAUX", str "Client Final",
       str "123 Rue test", str "Contact commercial"] = str "Client Final" := by
  decide

/-- C3 counterexample: an installation line in the services section whose
only extractable amount is exactly zero (`"0,00"`) DOES set `pose_sold`
(the placeholder filter of `_extract_pose_amount` only skips `1,00`),
contradicting the claim that a zero amount leaves `pose_sold` false. -/
theorem C3_zero_amount_sets_pose :
    find_pose_details [str "PRESTATIONS", str "Pose 0,00"] = (true, str "0,00") := by
  decide

/-- C3 (amended): inside the services section, an installation line whose
only plain extractable amount is the placeholder `"1,00"` leaves
`pose_sold` false and the scan continues; a line with amount `"1 500,00"`
sets `pose_sold` with the normalized amount, and the first such line
wins (lines before the `PRESTATIONS` marker are ignored). -/
theorem C3_pose_detector_boundary :
    find_pose_details [str "PRESTATIONS ET SERVICES", str "Pose de escalier : 1,00"]
        = (false, []) ∧
      find_pose_details [str "PRESTATIONS", str "Pose de escalier : 1 500,00"]
        = (true, str "1 500,00") ∧
      find_pose_details [str "Pose avant section 2 000,00", str "PRESTATIONS",
        str "Pose A 1,00", str "Pose B 1 500,00", str "Pose C 2 500,00"]
        = (true, str "1 500,00") := by
  refine ⟨by decide, by decide, by decide⟩

/-- C4 counterexample: no single amount normalizer satisfies the claim.
`DevisParser._normalize_amount("4894.08")` yields the ungrouped
`"4894,08"`, not the claimed `"4 894,08"`; and for an input with both
separators, `_format_amount("1.234,56")` yields `""` instead of removing
the dot as a thousands separator. -/
theorem C4_no_single_normalizer :
    dp_normalize_amount (str "4894.08") = str "4894,08" ∧
      str "4894,08" ≠ str "4 894,08" ∧
      format_amount (str "1.234,56") = .ok [] := by
  refine ⟨by decide, by decide, by decide⟩

/-- C4 (amended): `extraction_normalizer._format_amount` realizes the
grouping contract — `"4894.08" ↦ "4 894,08"`, `"1234,56" ↦ "1 234,56"`,
`"" ↦ ""`, a lone dot is the decimal separator — and every successful
output is either empty or of the canonical grouped shape; the
mixed-separator rule (dot dropped when a comma is also present) instead
lives in `DevisParser._normalize_amount`, whose output is not grouped. -/
theorem C4_amount_normalizer_rules :
    format_amount (str "4894.08") = .ok (str "4 894,08") ∧
      format_amount (str "1234,56") = .ok (str "1 234,56") ∧
      format_amount (str "") = .ok [] ∧
      format_amount (str "1234.56") = .ok (str "1 234,56") ∧
      dp_normalize_amount (str "1.234,56") = str "1234,56" ∧
      (∀ s y : Str, format_amount s = .ok y →
        y = [] ∨ ∃ neg cents, y = renderAmount neg cents) := by
  refine ⟨by decide, by decide, by decide, by decide, by decide, ?_⟩
  intro s y h
  simp only [format_amount] at h
  by_cases he : pyStrip s = []
  · rw [if_pos he] at h
    injection h with h2
    exact Or.inl h2.symm
  · rw [if_neg he] at h
    cases hp : parseDecimal (faClean (pyStrip s)) with
    | invalid => rw [hp] at h; injection h with h2; exact Or.inl h2.symm
    | nanQ => rw [hp] at h; exact absurd h (by simp)
    | nanS => rw [hp] at h; exact absurd h (by simp)
    | infV => rw [hp] at h; exact absurd h (by simp)
    | finite neg coeff eAdj =>
      rw [hp] at h
      dsimp only at h
      cases hq : quantCents false coeff eAdj with
      | none => rw [hq] at h; exact absurd h (by simp)
      | some cents =>
        rw [hq] at h
        injection h with h2
        exact Or.inr ⟨neg, cents, h2.symm⟩

/-- C4 witness: the universal shape conjunct instantiated at the concrete
input `"4894.08"`. -/
theorem C4_amount_normalizer_rules_witness :
    str "4 894,08" = [] ∨ ∃ neg cents, str "4 894,08" = renderAmount neg cents :=
  C4_amount_normalizer_rules.2.2.2.2.2 (str "4894.08") (str "4 894,08") (by decide)

/-- C5 counterexample: the reference decoder never consults the filename.
With `"SRX2511AFF037501"` in the filename but not in any document line,
the decoded triple is empty, contradicting the claimed filename-first
search order. -/
theorem C5_filename_not_searched :
    parse_reference_fields (str "SRX2511AFF037501_20251202_161449.pdf")
      [str "Code client"] = ([], [], []) := by
  decide

/-- C5 (amended): the decoder searches only document lines containing
`DEVIS`; the first line whose space-stripped text matches the SRX pattern
yields `(year_month, sequence, type) = ("2511", "037501", "AFF")`, lines
before it that yield no match are skipped, and the filename plays no
role. -/
theorem C5_devis_line_decode :
    ∀ (pre suf : List Str) (fn : Str),
      (∀ l ∈ pre, findDevisRefLine l = none) →
      parse_reference_fields fn (pre ++ str "DEVIS N° SRX2511AFF037501" :: suf) =
        (str "2511", str "037501", str "AFF") := by
  intro pre suf fn h
  unfold parse_reference_fields
  have key : find_devis_reference (pre ++ str "DEVIS N° SRX2511AFF037501" :: suf) =
      some (str "2511", str "037501", str "AFF") := by
    induction pre with
    | nil =>
      simp only [List.nil_append, find_devis_reference]
      rw [show findDevisRefLine (str "DEVIS N° SRX2511AFF037501") =
        some (str "2511", str "037501", str "AFF") from by decide]
      rfl
    | cons a t ih =>
      simp only [List.cons_append, find_devis_reference, h a (by simp)]
      exact ih (fun l hl => h l (by simp [hl]))
  rw [key]

/-- C5 witness: decoding with one reference-free `devis` line before the
carrying line. -/
theorem C5_devis_line_decode_witness :
    parse_reference_fields []
      [str "DEVIS sans reference", str "DEVIS N° SRX2511AFF037501"] =
      (str "2511", str "037501", str "AFF") :=
  C5_devis_line_decode [str "DEVIS sans reference"] [] []
    (by intro l hl; simp only [List.mem_singleton] at hl; subst hl; decide)

/-- C7 counterexample: `_merge_data` lets a non-empty alternative value
overwrite a non-empty anchor-based value: base maps `client_nom` to
`"A"`, the override maps it to `"B"`, and the merged map yields `"B"`. -/
theorem C7_merge_overwrites :
    merge_data mergeBaseCex mergeOverrideCex (str "client_nom") = some (str "B") ∧
      mergeBaseCex (str "client_nom") = some (str "A") ∧
      (some (str "B") : Option Str) ≠ some (str "A") := by
  refine ⟨by decide, by decide, by decide⟩

/-- C7 (amended): in the merged map a key keeps its anchor-based value
exactly when the alternative map lacks the key or carries an empty value
for it; a non-empty alternative value always replaces the anchor-based
value, even a non-empty one. -/
theorem C7_merge_semantics :
    ∀ (base override : Str → Option Str) (k : Str),
      (∀ v, override k = some v → v ≠ [] → merge_data base override k = some v) ∧
      (override k = none → merge_data base override k = base k) ∧
      (override k = some [] → merge_data base override k = base k) := by
  intro base override k
  refine ⟨?_, ?_, ?_⟩
  · intro v hv hne
    simp [merge_data, hv, hne]
  · intro hv
    simp [merge_data, hv]
  · intro hv
    simp [merge_data, hv]

/-- C7 witness: the overwrite conjunct instantiated at the concrete
one-key maps. -/
theorem C7_merge_semantics_witness :
    merge_data mergeBaseCex mergeOverrideCex (str "client_nom") = some (str "B") :=
  (C7_merge_semantics mergeBaseCex mergeOverrideCex (str "client_nom")).1
    (str "B") (by decide) (by decide)

/-- C9 counterexample: on the unparseable input `"abc"`,
`data_normalizer._format_amount_fr` returns the text `"abc"` rather than
the empty string; and `extraction_normalizer._format_amount("nan")`
raises (the quantized NaN crashes the `split(".")` unpacking outside the
`try` block). -/
theorem C9_not_total :
    format_amount_fr (str "abc") = .ok (str "abc") ∧
      format_amount (str "nan") = .exn := by
  refine ⟨by decide, by decide⟩

/-- C9 (amended): `_format_amount` returns the empty string on empty or
unparseable input, but raises on `Decimal` special values such as `nan`;
`_format_amount_fr` returns the stripped input text, not the empty
string, on unparseable input, and also raises on `nan`. -/
theorem C9_unparseable_behavior :
    (∀ s : Str, parseDecimal (faClean (pyStrip s)) = .invalid →
      format_amount s = .ok []) ∧
      format_amount (str "") = .ok [] ∧
      format_amount_fr (str "") = .ok [] ∧
      format_amount_fr (str " 12abc ") = .ok (str "12abc") ∧
      format_amount_fr (str "nan") = .exn := by
  refine ⟨?_, by decide, by decide, by decide, by decide⟩
  intro s h
  simp only [format_amount]
  by_cases he : pyStrip s = []
  · rw [if_pos he]
  · rw [if_neg he, h]

/-- C9 witness: the unparseable-input conjunct instantiated at `"abc"`. -/
theorem C9_unparseable_behavior_witness : format_amount (str "abc") = .ok [] :=
  C9_unparseable_behavior.1 (str "abc") (by decide)

/-- C10 counterexample: a malformed postal code is not always replaced by
the empty string — pollution clearing plus deduction from the address
lines can substitute a five-digit code — and `client_ville` is not left
in place — a polluted city is cleared. -/
theorem C10_cp_not_just_cleared :
    (validate_and_fix cpCexRec).client_cp = str "77100" ∧
      cpCexRec.client_cp = str "VAUGARNY 1" ∧
      (validate_and_fix villeCexRec).client_ville = [] ∧
      villeCexRec.client_ville = str "BAZOUGES" := by
  refine ⟨by decide, by decide, by decide, by decide⟩

/-- C10 (amended): for every input record, `validate_and_fix` returns a
`client_cp` that is either empty or exactly five digits; a malformed
postal code never survives, though it may be replaced by a five-digit
code deduced from the address lines rather than by the empty string, and
`client_ville` may change independently. -/
theorem C10_cp_shape :
    ∀ r : Rec, (validate_and_fix r).client_cp = [] ∨
      (((validate_and_fix r).client_cp).length = 5 ∧
        ((validate_and_fix r).client_cp).all isDig = true) := by
  intro r
  simp only [validate_and_fix]
  exact clean_cp_shape _

/-- C1 counterexample: `validate_and_fix` checks only the name, address,
city and postal-code fields against the issuer markers; the issuer
switchboard phone `"02 99 97 45 40"` — one of its own `RIAUX_TOKENS` —
propagates unchanged through `client_tel`. -/
theorem C1_phone_marker_propagates :
    (validate_and_fix telCexRec).client_tel = str "02 99 97 45 40" ∧
      contains_riaux (str "02 99 97 45 40") = true := by
  refine ⟨by decide, by decide⟩

/-- C1 (amended): `sanitize_client_data` guarantees that none of the
seven client fields of its result matches any `sanitize.py` marker (a
still-contaminated field comes back empty); `validate_and_fix` guarantees
the same, with respect to its own `RIAUX_TOKENS`, only for `client_nom`,
`client_adresse1`, `client_adresse2`, `client_cp` and `client_ville` —
`client_tel` and `client_email` are not covered. -/
theorem C1_contamination_invariant :
    ∀ r : Rec,
      (is_riaux_contaminated ((sanitize_client_data r).client_nom) = false ∧
        is_riaux_contaminated ((sanitize_client_data r).client_adresse1) = false ∧
        is_riaux_contaminated ((sanitize_client_data r).client_adresse2) = false ∧
        is_riaux_contaminated ((sanitize_client_data r).client_cp) = false ∧
        is_riaux_contaminated ((sanitize_client_data r).client_ville) = false ∧
        is_riaux_contaminated ((sanitize_client_data r).client_tel) = false ∧
        is_riaux_contaminated ((sanitize_client_data r).client_email) = false) ∧
      (contains_riaux ((validate_and_fix r).client_nom) = false ∧
        contains_riaux ((validate_and_fix r).client_adresse1) = false ∧
        contains_riaux ((validate_and_fix r).client_adresse2) = false ∧
        contains_riaux ((validate_and_fix r).client_cp) = false ∧
        contains_riaux ((validate_and_fix r).client_ville) = false) := by
  intro r
  constructor
  · simp only [sanitize_client_data]
    exact ⟨sanitize_client_field_clean _, sanitize_client_field_clean _,
      sanitize_client_field_clean _, sanitize_client_field_clean _,
      sanitize_client_field_clean _, sanitize_client_field_clean _,
      sanitize_client_field_clean _⟩
  · simp only [validate_and_fix]
    exact ⟨contains_riaux_clear _, contains_riaux_clear _, contains_riaux_clear _,
      contains_riaux_clean_cp (contains_riaux_clear _), contains_riaux_clear _⟩

theorem ite_eq_some {α : Type} {p : Prop} [Decidable p] {x : Option α} {r : α}
    (h : (if p then x else none) = some r) : p ∧ x = some r := by
  split_ifs at h with hp
  exact ⟨hp, h⟩

theorem matchSrxAt_spec {ci gaps : Bool} {l y t n : Str}
    (h : matchSrxAt ci gaps l = some (y, t, n)) :
    y.length = 4 ∧ y.all isDig = true ∧ t.length = 3 ∧
      t.all (fun c => if ci then isLatin c else isLatinUpper c) = true ∧
      n.length = 6 ∧ n.all isDig = true := by
  cases l with
  | nil => simp [matchSrxAt] at h
  | cons c1 l1 =>
    cases l1 with
    | nil => simp [matchSrxAt] at h
    | cons c2 l2 =>
      cases l2 with
      | nil => simp [matchSrxAt] at h
      | cons c3 rest =>
        simp only [matchSrxAt] at h
        obtain ⟨-, h⟩ := ite_eq_some h
        obtain ⟨hg, h3⟩ := ite_eq_some h
        injection h3 with h4
        injection h4 with hy h5
        injection h5 with ht hn
        subst hy; subst ht; subst hn
        simp only [Bool.and_eq_true, decide_eq_true_eq] at hg
        exact ⟨hg.1.1.1.1.1, hg.1.1.1.1.2, hg.1.1.1.2, hg.1.1.2, hg.1.2, hg.2⟩

theorem searchSrx_spec {ci gaps : Bool} :
    ∀ {l y t n : Str}, searchSrx ci gaps l = some (y, t, n) →
      y.length = 4 ∧ y.all isDig = true ∧ t.length = 3 ∧
        t.all (fun c => if ci then isLatin c else isLatinUpper c) = true ∧
        n.length = 6 ∧ n.all isDig = true := by
  intro l
  induction l with
  | nil => intro y t n h; simp [searchSrx] at h
  | cons c tl ih =>
    intro y t n h
    simp only [searchSrx] at h
    cases hm : matchSrxAt ci gaps (c :: tl) with
    | some r =>
      rw [hm] at h
      simp only [Option.some_orElse] at h
      injection h with h2
      subst h2
      exact matchSrxAt_spec hm
    | none =>
      rw [hm] at h
      simp only [Option.none_orElse] at h
      exact ih h

theorem extract_srx_spec :
    ∀ {parts : List Str} {y t n : Str}, extract_srx parts = some (y, t, n) →
      y.length = 4 ∧ y.all isDig = true ∧ t.length = 3 ∧
        t.all isLatin = true ∧ n.length = 6 ∧ n.all isDig = true := by
  intro parts
  induction parts with
  | nil => intro y t n h; simp [extract_srx] at h
  | cons p tl ih =>
    intro y t n h
    simp only [extract_srx] at h
    cases hm : searchSrx true false (p.filter (fun c => c ≠ ' ')) with
    | some r =>
      rw [hm] at h
      simp only [Option.some_orElse] at h
      injection h with h2
      subst h2
      have := searchSrx_spec hm
      simpa using this
    | none =>
      rw [hm] at h
      simp only [Option.none_orElse] at h
      exact ih h

theorem rule_parse_reference_spec :
    ∀ {lines : List Str} {y t n : Str}, rule_parse_reference lines = some (y, t, n) →
      y.length = 4 ∧ y.all isDig = true ∧ t.length = 3 ∧
        t.all isLatin = true ∧ n.length = 6 ∧ n.all isDig = true := by
  intro lines
  induction lines with
  | nil => intro y t n h; simp [rule_parse_reference] at h
  | cons p tl ih =>
    intro y t n h
    simp only [rule_parse_reference] at h
    cases hm : searchSrx true true p with
    | some r =>
      rw [hm] at h
      simp only [Option.some_orElse] at h
      injection h with h2
      subst h2
      have := searchSrx_spec hm
      simpa using this
    | none =>
      rw [hm] at h
      simp only [Option.none_orElse] at h
      exact ih h

theorem pyStrip_digits {l : Str} (h : l.all isDig = true) : pyStrip l = l :=
  pyStrip_eq_self (fun c hc => isDig_not_ws (by
    rw [List.all_eq_true] at h
    exact h c hc))

theorem normalizeYymm_four {y : Str} (h4 : y.length = 4) (hd : y.all isDig = true) :
    normalizeYymm y = y := by
  have hne : y ≠ [] := by
    intro e
    rw [e] at h4
    simp at h4
  unfold normalizeYymm
  rw [if_neg hne, pyStrip_digits hd]
  rw [if_neg (by simp [h4]), if_pos (by simp [h4, hd])]

theorem ne_nil_of_length {l : Str} {k : Nat} (h : l.length = k) (hk : k ≠ 0) : l ≠ [] := by
  intro e
  rw [e] at h
  simp at h
  omega

theorem pyStrip_latin {l : Str} (h : l.all isLatin = true) : pyStrip l = l :=
  pyStrip_eq_self (fun c hc => isLatin_not_ws (by
    rw [List.all_eq_true] at h
    exact h c hc))

theorem upperStr_ne_nil {l : Str} (h : l ≠ []) : upperStr l ≠ [] := by
  intro e
  exact h (List.map_eq_nil_iff.mp e)

/-- C6: composing `RuleBasedParser._parse_reference` (which fills all
three reference fields from one match or leaves all three empty) with
`extraction_normalizer._normalize_srx`, the assembled record always has
`devis_annee_mois`, `devis_type` and `devis_num` all non-empty or all
empty, whatever the document lines and the other string values of the
record are. -/
theorem C6_reference_all_or_nothing (lines others : List Str) :
    srxAllOrNothing (normalize_srx (mkSrxData (rule_parse_reference lines) others)) := by
  cases href : rule_parse_reference lines with
  | none =>
    simp only [mkSrxData, normalize_srx]
    cases hex : extract_srx ([] :: [] :: [] :: [] :: others) with
    | some r =>
      obtain ⟨y, t, n⟩ := r
      dsimp only
      obtain ⟨hy4, hyd, ht3, htl, hn6, hnd⟩ := extract_srx_spec hex
      refine Or.inl ⟨?_, ?_, ?_⟩
      · simpa [normalizeYymm_four hy4 hyd] using ne_nil_of_length hy4 (by omega)
      · simpa using ne_nil_of_length ht3 (by omega)
      · simpa using ne_nil_of_length hn6 (by omega)
    | none =>
      unfold srxAllOrNothing
      dsimp only
      exact Or.inr ⟨rfl, rfl, rfl⟩
  | some r =>
    obtain ⟨y, t, n⟩ := r
    obtain ⟨hy4, hyd, ht3, htl, hn6, hnd⟩ := rule_parse_reference_spec href
    have hyne : y ≠ [] := ne_nil_of_length hy4 (by omega)
    have htne : t ≠ [] := ne_nil_of_length ht3 (by omega)
    have hnne : n ≠ [] := ne_nil_of_length hn6 (by omega)
    simp only [mkSrxData, normalize_srx]
    cases hex : extract_srx (n :: y :: t :: n :: others) with
    | some r2 =>
      obtain ⟨y2, t2, n2⟩ := r2
      dsimp only
      obtain ⟨hy4b, hydb, ht3b, htlb, hn6b, hndb⟩ := extract_srx_spec hex
      refine Or.inl ⟨?_, ?_, ?_⟩
      · simpa [normalizeYymm_four hy4b hydb] using ne_nil_of_length hy4b (by omega)
      · simpa using ne_nil_of_length ht3b (by omega)
      · simpa using ne_nil_of_length hn6b (by omega)
    | none =>
      dsimp only
      refine Or.inl ⟨?_, ?_, ?_⟩
      · simpa [pyStrip_digits hyd, normalizeYymm_four hy4 hyd] using hyne
      · simp [pyStrip_latin htl, htne]
        exact upperStr_ne_nil htne
      · simp [pyStrip_digits hnd, hn6, hnd]
        exact hnne

theorem chunks3Aux_flatten : ∀ (f : Nat) (l : Str), (chunks3Aux f l).flatten = l := by
  intro f
  induction f with
  | zero =>
    intro l
    cases l with
    | nil => rfl
    | cons a t => simp [chunks3Aux]
  | succ f ih =>
    intro l
    cases l with
    | nil => rfl
    | cons a t =>
      simp only [chunks3Aux]
      by_cases hl : (a :: t).length ≤ 3
      · rw [if_pos hl]; simp
      · rw [if_neg hl]
        rw [List.flatten_append, ih]
        simp

theorem chunks3Aux_ne_nil :
    ∀ (f : Nat) (l : Str), l ≠ [] → ∀ w ∈ chunks3Aux f l, w ≠ [] := by
  intro f
  induction f with
  | zero =>
    intro l hl w hw
    cases l with
    | nil => exact absurd rfl hl
    | cons a t => simp [chunks3Aux] at hw; simp [hw]
  | succ f ih =>
    intro l hl w hw
    cases l with
    | nil => exact absurd rfl hl
    | cons a t =>
      simp only [chunks3Aux] at hw
      by_cases hlen : (a :: t).length ≤ 3
      · rw [if_pos hlen] at hw
        simp at hw
        simp [hw]
      · rw [if_neg hlen] at hw
        rcases List.mem_append.mp hw with hw | hw
        · refine ih _ ?_ w hw
          intro e
          have hl2 : (List.take ((a :: t).length - 3) (a :: t)).length = 0 := by
            rw [e]; rfl
          rw [List.length_take] at hl2
          simp only [List.length_cons] at hl2 hlen
          omega
        · simp only [List.mem_singleton] at hw
          intro e
          rw [e] at hw
          have hl2 : (List.drop ((a :: t).length - 3) (a :: t)).length = 0 := by
            rw [← hw]; rfl
          rw [List.length_drop] at hl2
          simp only [List.length_cons] at hl2 hlen
          omega

theorem joinSpace_mem {c : Char} :
    ∀ {ws : List Str}, c ∈ joinSpace ws → c = ' ' ∨ ∃ w ∈ ws, c ∈ w := by
  intro ws
  induction ws with
  | nil => intro h; simp [joinSpace] at h
  | cons w rest ih =>
    intro h
    cases rest with
    | nil =>
      simp only [joinSpace] at h
      exact Or.inr ⟨w, by simp, h⟩
    | cons w2 rest2 =>
      simp only [joinSpace, List.mem_append, List.mem_cons] at h
      rcases h with h | h | h
      · exact Or.inr ⟨w, by simp, h⟩
      · exact Or.inl h
      · rcases ih h with h2 | ⟨w3, hw3, hc⟩
        · exact Or.inl h2
        · exact Or.inr ⟨w3, by simp [hw3], hc⟩

theorem joinSpace_head {w : Str} (ws : List Str) (hw : w ≠ []) :
    (joinSpace (w :: ws)).head? = w.head? := by
  cases ws with
  | nil => rfl
  | cons w2 rest =>
    cases w with
    | nil => exact absurd rfl hw
    | cons a t => simp [joinSpace]

theorem joinSpace_filter {p : Char → Bool} (hsp : p ' ' = false) :
    ∀ {ws : List Str}, (∀ w ∈ ws, ∀ c ∈ w, p c = true) →
      (joinSpace ws).filter p = ws.flatten := by
  intro ws
  induction ws with
  | nil => intro _; rfl
  | cons w rest ih =>
    intro h
    cases rest with
    | nil =>
      simp only [joinSpace, List.flatten]
      rw [List.filter_eq_self.mpr (h w (by simp))]
      simp
    | cons w2 rest2 =>
      simp only [joinSpace] at *
      rw [List.filter_append, List.filter_eq_self.mpr (h w (by simp)),
        List.filter_cons_of_neg (by simp [hsp])]
      rw [ih (fun x hx c hc => h x (by simp [hx]) c hc)]
      simp

theorem faCleanKeep_spec {c : Char} (h : isDig c = true) :
    (!(c ∈ [' ', ' ', ' '])) = true := by
  obtain ⟨-, -, -, -, -, -, -, -, h1, h2, h3⟩ := isDig_ne h
  simp [h1, h2, h3]

theorem chunks3_chars {ds : Str} (hd : ∀ c ∈ ds, isDig c = true) :
    ∀ w ∈ chunks3Aux ds.length ds, ∀ c ∈ w, isDig c = true := by
  intro w hw c hc
  refine hd c ?_
  rw [← chunks3Aux_flatten ds.length ds]
  exact List.mem_flatten.mpr ⟨w, hw, hc⟩

theorem chunks3_exists {ds : Str} (hne : ds ≠ []) :
    ∃ w ws, chunks3Aux ds.length ds = w :: ws := by
  cases hch : chunks3Aux ds.length ds with
  | nil =>
    exfalso
    apply hne
    rw [← chunks3Aux_flatten ds.length ds, hch]
    rfl
  | cons w ws => exact ⟨w, ws, rfl⟩

theorem groupThrees_filter {ds : Str} (hne : ds ≠ []) (hd : ∀ c ∈ ds, isDig c = true) :
    (groupThrees ds).filter (fun c => !(c ∈ [' ', ' ', ' '])) = ds := by
  unfold groupThrees
  rw [if_neg hne]
  rw [joinSpace_filter (by decide)
    (fun w hw c hc => faCleanKeep_spec (chunks3_chars hd w hw c hc))]
  exact chunks3Aux_flatten ds.length ds

theorem groupThrees_head {ds : Str} (hne : ds ≠ []) (hd : ∀ c ∈ ds, isDig c = true) :
    ∀ c, (groupThrees ds).head? = some c → isDig c = true := by
  intro c hc
  unfold groupThrees at hc
  rw [if_neg hne] at hc
  obtain ⟨w, ws, hch⟩ := chunks3_exists hne
  rw [hch] at hc
  have hwne : w ≠ [] := chunks3Aux_ne_nil ds.length ds hne w (by rw [hch]; simp)
  rw [joinSpace_head ws hwne] at hc
  cases w with
  | nil => exact absurd rfl hwne
  | cons a t =>
    simp only [List.head?_cons, Option.some.injEq] at hc
    exact hc ▸ chunks3_chars hd (a :: t) (by rw [hch]; simp) a (by simp)

theorem groupThrees_mem {ds : Str} (hne : ds ≠ []) (hd : ∀ c ∈ ds, isDig c = true) :
    ∀ c ∈ groupThrees ds, isDig c = true ∨ c = ' ' := by
  intro c hc
  unfold groupThrees at hc
  rw [if_neg hne] at hc
  rcases joinSpace_mem hc with h | ⟨w, hw, hcw⟩
  · exact Or.inr h
  · exact Or.inl (chunks3_chars hd w hw c hcw)

theorem digitChar_isDig (n : Nat) : isDig (digitChar n) = true := by
  unfold digitChar
  split <;> decide

theorem twoDigits_spec (m : Nat) :
    (twoDigits m).length = 2 ∧ ∀ c ∈ twoDigits m, isDig c = true := by
  refine ⟨rfl, ?_⟩
  intro c hc
  simp only [twoDigits, List.mem_cons, List.mem_singleton] at hc
  rcases hc with rfl | rfl | h
  · exact digitChar_isDig (m / 10)
  · exact digitChar_isDig (m % 10)
  · simp at h

theorem groupThrees_cons {ds : Str} (hne : ds ≠ []) (hd : ∀ c ∈ ds, isDig c = true) :
    ∃ a t, groupThrees ds = a :: t ∧ isDig a = true := by
  cases hg : groupThrees ds with
  | nil =>
    exfalso
    have := groupThrees_filter hne hd
    rw [hg] at this
    exact hne this.symm
  | cons a t =>
    refine ⟨a, t, rfl, ?_⟩
    exact groupThrees_head hne hd a (by rw [hg]; rfl)

theorem renderAmount_strip (neg : Bool) (cents : Nat) :
    pyStrip (renderAmount neg cents) = renderAmount neg cents := by
  obtain ⟨hdne, hdd, -⟩ := natToDigits_spec (cents / 100)
  obtain ⟨a, t, hg, ha⟩ := groupThrees_cons hdne (fun c hc => hdd c hc)
  have hfront : (renderAmount neg cents).dropWhile isPyWs = renderAmount neg cents := by
    apply dropWhile_noop
    intro c hc
    unfold renderAmount at hc
    split at hc
    · simp only [List.cons_append, List.head?_cons, Option.some.injEq] at hc
      rw [← hc]
      decide
    · rw [hg] at hc
      simp only [List.nil_append, List.cons_append, List.head?_cons,
        Option.some.injEq] at hc
      rw [← hc]
      exact isDig_not_ws ha
  have hback : (renderAmount neg cents).reverse.dropWhile isPyWs =
      (renderAmount neg cents).reverse := by
    apply dropWhile_noop
    intro c hc
    unfold renderAmount twoDigits at hc
    rw [List.reverse_append, List.reverse_append] at hc
    simp only [List.reverse_cons, List.reverse_nil, List.nil_append,
      List.cons_append, List.append_assoc, List.head?_cons, Option.some.injEq] at hc
    rw [← hc]
    exact isDig_not_ws (digitChar_isDig (cents % 100 % 10))
  unfold pyStrip
  rw [hfront, hback, List.reverse_reverse]

theorem faClean_render (neg : Bool) (cents : Nat) :
    faClean (renderAmount neg cents) =
      (if neg && cents ≠ 0 then ['-'] else []) ++ natToDigits (cents / 100) ++
        '.' :: twoDigits (cents % 100) := by
  obtain ⟨hdne, hdd, -⟩ := natToDigits_spec (cents / 100)
  obtain ⟨-, htd⟩ := twoDigits_spec (cents % 100)
  unfold faClean renderAmount
  rw [List.filter_append, List.filter_append, groupThrees_filter hdne hdd,
    List.filter_cons_of_pos (by decide),
    List.filter_eq_self.mpr (fun c hc => faCleanKeep_spec (htd c hc))]
  have hsgn : List.filter (fun c => !(c ∈ [' ', ' ', ' ']))
      (if neg && cents ≠ 0 then ['-'] else []) =
      (if neg && cents ≠ 0 then ['-'] else []) := by
    split <;> rfl
  rw [hsgn, List.map_append, List.map_append]
  have hm1 : List.map (fun c => if c = ',' then '.' else c)
      (if neg && cents ≠ 0 then ['-'] else []) =
      (if neg && cents ≠ 0 then ['-'] else []) := by
    split <;> rfl
  have hm2 : List.map (fun c => if c = ',' then '.' else c) (natToDigits (cents / 100)) =
      natToDigits (cents / 100) :=
    map_noop (fun c hc => by
      obtain ⟨-, -, -, h4, -⟩ := isDig_ne (hdd c hc)
      simp [h4])
  have hm3 : List.map (fun c => if c = ',' then '.' else c) (',' :: twoDigits (cents % 100)) =
      '.' :: twoDigits (cents % 100) := by
    rw [List.map_cons, if_pos rfl, map_noop (fun c hc => by
      obtain ⟨-, -, -, h4, -⟩ := isDig_ne (htd c hc)
      simp [h4])]
  rw [hm1, hm2, hm3]

theorem takeWhile_all {p : Char → Bool} {l : Str} (h : ∀ c ∈ l, p c = true) :
    l.takeWhile p = l ∧ l.dropWhile p = [] := by
  have := takeWhile_all_append (l := l) [] h (fun c hc => by simp at hc)
  simpa using this

theorem parseDecBody_canonical {ds d2 : Str} (neg : Bool)
    (hds : ds ≠ []) (hdig : ∀ c ∈ ds, isDig c = true)
    (h2len : d2.length = 2) (h2dig : ∀ c ∈ d2, isDig c = true) :
    parseDecBody neg (ds ++ '.' :: d2) =
      .finite neg (natOfDigits (ds ++ d2)) (-2) := by
  have htd := takeWhile_all_append (l := ds) ('.' :: d2) hdig (fun c hc => by
    simp only [List.head?_cons, Option.some.injEq] at hc
    rw [← hc]
    decide)
  have h2 := takeWhile_all h2dig
  unfold parseDecBody
  rw [htd.1, htd.2]
  dsimp only
  split
  · next r2 heq =>
      injection heq with heq1 heq2
      subst heq2
      rw [h2.1, h2.2, if_neg (by simp [hds])]
      unfold parseDecExp
      rw [h2len]
      dsimp only
      norm_num
  · next x hne2 => exact absurd rfl (hne2 d2)

theorem parseDecSign_digit {c : Char} (h : isDig c = true) (t : Str) :
    parseDecSign (c :: t) = (false, c :: t) := by
  obtain ⟨h1, h2, -⟩ := isDig_ne h
  simp [parseDecSign, h1, h2]

theorem specials_skip {dc : Char} (hdc : isDig dc = true) (sgnb : Bool) (rest : Str) :
    (if upperStr (dc :: rest) = str "INF" || upperStr (dc :: rest) = str "INFINITY"
      then DecP.infV
      else if (str "NAN").isPrefixOf (upperStr (dc :: rest)) &&
          ((upperStr (dc :: rest)).drop 3).all isDig then DecP.nanQ
      else if (str "SNAN").isPrefixOf (upperStr (dc :: rest)) &&
          ((upperStr (dc :: rest)).drop 4).all isDig then DecP.nanS
      else parseDecBody sgnb (dc :: rest)) = parseDecBody sgnb (dc :: rest) := by
  obtain ⟨-, -, -, -, -, hI, hN, hS, -⟩ := isDig_ne hdc
  have hu : upperStr (dc :: rest) = dc :: upperStr rest := by
    simp [upperStr, isDig_pyUpper hdc]
  rw [if_neg ?c1, if_neg ?c2, if_neg ?c3]
  case c1 =>
    intro hcond
    simp only [Bool.or_eq_true, decide_eq_true_eq] at hcond
    rcases hcond with hcond | hcond
    · rw [hu, show str "INF" = 'I' :: str "NF" from rfl] at hcond
      exact hI (List.cons_eq_cons.mp hcond).1
    · rw [hu, show str "INFINITY" = 'I' :: str "NFINITY" from rfl] at hcond
      exact hI (List.cons_eq_cons.mp hcond).1
  case c2 =>
    intro hcond
    simp only [Bool.and_eq_true] at hcond
    have hpre := hcond.1
    rw [List.isPrefixOf_iff_prefix, hu,
      show str "NAN" = 'N' :: str "AN" from rfl] at hpre
    exact hN ((List.cons_prefix_cons.mp hpre).1).symm
  case c3 =>
    intro hcond
    simp only [Bool.and_eq_true] at hcond
    have hpre := hcond.1
    rw [List.isPrefixOf_iff_prefix, hu,
      show str "SNAN" = 'S' :: str "NAN" from rfl] at hpre
    exact hS ((List.cons_prefix_cons.mp hpre).1).symm

theorem parseDecimal_canonical_pos {ds d2 : Str}
    (hds : ds ≠ []) (hdig : ∀ c ∈ ds, isDig c = true)
    (h2len : d2.length = 2) (h2dig : ∀ c ∈ d2, isDig c = true) :
    parseDecimal (ds ++ '.' :: d2) = .finite false (natOfDigits (ds ++ d2)) (-2) := by
  obtain ⟨dc, dsr, rfl⟩ : ∃ dc dsr, ds = dc :: dsr := by
    cases ds with
    | nil => exact absurd rfl hds
    | cons a t => exact ⟨a, t, rfl⟩
  have hdc : isDig dc = true := hdig dc (by simp)
  have hchars : ∀ c ∈ (dc :: dsr) ++ '.' :: d2, isPyWs c = false ∧ c ≠ '_' := by
    intro c hc
    rcases List.mem_append.mp hc with hc1 | hc2
    · exact ⟨isDig_not_ws (hdig c hc1), (isDig_ne (hdig c hc1)).2.2.2.2.1⟩
    · rcases List.mem_cons.mp hc2 with rfl | hc3
      · exact ⟨by decide, by decide⟩
      · exact ⟨isDig_not_ws (h2dig c hc3), (isDig_ne (h2dig c hc3)).2.2.2.2.1⟩
  have hstrip : pyStrip ((dc :: dsr) ++ '.' :: d2) = (dc :: dsr) ++ '.' :: d2 :=
    pyStrip_eq_self (fun c hc => (hchars c hc).1)
  have hfilter : ((dc :: dsr) ++ '.' :: d2).filter (fun c => c ≠ '_') =
      (dc :: dsr) ++ '.' :: d2 :=
    List.filter_eq_self.mpr (fun c hc => by simp [(hchars c hc).2])
  unfold parseDecimal
  rw [hstrip, hfilter, if_neg (by simp)]
  rw [List.cons_append, parseDecSign_digit hdc]
  dsimp only
  rw [specials_skip hdc]
  rw [← List.cons_append]
  exact parseDecBody_canonical false hds hdig h2len h2dig

theorem parseDecimal_canonical_neg {ds d2 : Str}
    (hds : ds ≠ []) (hdig : ∀ c ∈ ds, isDig c = true)
    (h2len : d2.length = 2) (h2dig : ∀ c ∈ d2, isDig c = true) :
    parseDecimal ('-' :: (ds ++ '.' :: d2)) =
      .finite true (natOfDigits (ds ++ d2)) (-2) := by
  obtain ⟨dc, dsr, rfl⟩ : ∃ dc dsr, ds = dc :: dsr := by
    cases ds with
    | nil => exact absurd rfl hds
    | cons a t => exact ⟨a, t, rfl⟩
  have hdc : isDig dc = true := hdig dc (by simp)
  have hchars : ∀ c ∈ '-' :: ((dc :: dsr) ++ '.' :: d2), isPyWs c = false ∧ c ≠ '_' := by
    intro c hc
    rcases List.mem_cons.mp hc with rfl | hc0
    · exact ⟨by decide, by decide⟩
    rcases List.mem_append.mp hc0 with hc1 | hc2
    · exact ⟨isDig_not_ws (hdig c hc1), (isDig_ne (hdig c hc1)).2.2.2.2.1⟩
    · rcases List.mem_cons.mp hc2 with rfl | hc3
      · exact ⟨by decide, by decide⟩
      · exact ⟨isDig_not_ws (h2dig c hc3), (isDig_ne (h2dig c hc3)).2.2.2.2.1⟩
  have hstrip : pyStrip ('-' :: ((dc :: dsr) ++ '.' :: d2)) =
      '-' :: ((dc :: dsr) ++ '.' :: d2) :=
    pyStrip_eq_self (fun c hc => (hchars c hc).1)
  have hfilter : ('-' :: ((dc :: dsr) ++ '.' :: d2)).filter (fun c => c ≠ '_') =
      '-' :: ((dc :: dsr) ++ '.' :: d2) :=
    List.filter_eq_self.mpr (fun c hc => by simp [(hchars c hc).2])
  unfold parseDecimal
  rw [hstrip, hfilter, if_neg (by simp)]
  rw [show parseDecSign ('-' :: ((dc :: dsr) ++ '.' :: d2)) =
    (true, (dc :: dsr) ++ '.' :: d2) from by simp [parseDecSign]]
  dsimp only
  rw [List.cons_append, specials_skip hdc]
  rw [← List.cons_append]
  exact parseDecBody_canonical true hds hdig h2len h2dig

theorem natOfDigits_render_roundtrip (cents : Nat) :
    natOfDigits (natToDigits (cents / 100) ++ twoDigits (cents % 100)) = cents := by
  rw [natOfDigits_append, (natToDigits_spec (cents / 100)).2.2]
  have h2 : natOfDigits (twoDigits (cents % 100)) = cents % 100 := by
    simp only [twoDigits, natOfDigits, List.foldl]
    rw [(digitChar_spec (cents % 100 / 10) (by omega)).2,
      (digitChar_spec (cents % 100 % 10) (by omega)).2]
    omega
  rw [h2]
  simp only [twoDigits, List.length_cons, List.length_nil]
  have := Nat.div_add_mod cents 100
  omega

theorem quantCents_m0 (coeff : Nat) (hb : (natToDigits coeff).length ≤ 28) :
    quantCents false coeff (-2) = some coeff := by
  unfold quantCents
  norm_num [hb]

theorem format_amount_render (neg : Bool) (cents : Nat)
    (hb : (natToDigits cents).length ≤ 28) :
    format_amount (renderAmount neg cents) = .ok (renderAmount neg cents) := by
  obtain ⟨hdne, hdd, -⟩ := natToDigits_spec (cents / 100)
  obtain ⟨h2len, h2dig⟩ := twoDigits_spec (cents % 100)
  have hstrip := renderAmount_strip neg cents
  have hne : renderAmount neg cents ≠ [] := by
    unfold renderAmount
    intro e
    have := congrArg List.length e
    simp at this
  unfold format_amount
  rw [hstrip, if_neg hne, faClean_render]
  rcases Bool.eq_false_or_eq_true (neg && decide (cents ≠ 0)) with hb2 | hb2
  · simp only [Bool.and_eq_true] at hb2
    obtain ⟨hneg, hd⟩ := hb2
    subst hneg
    rw [if_pos (by simp [hd]), List.singleton_append, List.cons_append,
      parseDecimal_canonical_neg hdne hdd h2len h2dig]
    dsimp only
    rw [natOfDigits_render_roundtrip, quantCents_m0 cents hb]
  · rw [hb2]
    rw [if_neg (by simp), List.nil_append,
      parseDecimal_canonical_pos hdne hdd h2len h2dig]
    dsimp only
    rw [natOfDigits_render_roundtrip, quantCents_m0 cents hb]
    dsimp only
    have heq : renderAmount false cents = renderAmount neg cents := by
      unfold renderAmount
      rw [hb2, show (false && decide (cents ≠ 0)) = false from by simp]
    rw [heq]

theorem quantCents_bound {he : Bool} {coeff cents : Nat} {eAdj : Int}
    (h : quantCents he coeff eAdj = some cents) :
    (natToDigits cents).length ≤ 28 := by
  unfold quantCents at h
  dsimp only at h
  obtain ⟨hb, h2⟩ := ite_eq_some h
  injection h2 with h3
  rw [← h3]
  exact hb

theorem format_amount_idem {x y : Str} (h : format_amount x = .ok y) :
    format_amount y = .ok y := by
  rw [show format_amount x = (let cleaned := pyStrip x;
    if cleaned = [] then .ok [] else
    match parseDecimal (faClean cleaned) with
    | .invalid => .ok []
    | .nanQ => .exn
    | .nanS => .exn
    | .infV => .exn
    | .finite neg coeff eAdj =>
      match quantCents false coeff eAdj with
      | none => .exn
      | some cents => .ok (renderAmount neg cents)) from rfl] at h
  dsimp only at h
  by_cases he : pyStrip x = []
  · rw [if_pos he] at h
    injection h with h2
    rw [← h2]
    rfl
  · rw [if_neg he] at h
    cases hp : parseDecimal (faClean (pyStrip x)) with
    | invalid =>
      rw [hp] at h
      injection h with h2
      rw [← h2]
      rfl
    | nanQ => rw [hp] at h; exact absurd h (by simp)
    | nanS => rw [hp] at h; exact absurd h (by simp)
    | infV => rw [hp] at h; exact absurd h (by simp)
    | finite neg coeff eAdj =>
      rw [hp] at h
      dsimp only at h
      cases hq : quantCents false coeff eAdj with
      | none => rw [hq] at h; exact absurd h (by simp)
      | some cents =>
        rw [hq] at h
        injection h with h2
        rw [← h2]
        exact format_amount_render neg cents (quantCents_bound hq)

theorem contains_false_iff {l : Str} {a : Char} : l.contains a = false ↔ a ∉ l := by
  rw [← Bool.not_eq_true]
  exact not_congr List.elem_iff

theorem pyWordsAux_words :
    ∀ (l : Str) (acc : Str), (∀ c ∈ acc, isPyWs c = false) →
      ∀ w ∈ pyWordsAux acc l, w ≠ [] ∧ ∀ c ∈ w, isPyWs c = false := by
  intro l
  induction l with
  | nil =>
    intro acc hacc w hw
    simp only [pyWordsAux] at hw
    by_cases ha : acc = []
    · rw [if_pos ha] at hw; simp at hw
    · rw [if_neg ha] at hw
      simp only [List.mem_singleton] at hw
      subst hw
      exact ⟨by simpa using ha, fun c hc => hacc c (by simpa using hc)⟩
  | cons c t ih =>
    intro acc hacc w hw
    simp only [pyWordsAux] at hw
    by_cases hc : isPyWs c = true
    · rw [if_pos hc] at hw
      by_cases ha : acc = []
      · rw [if_pos ha] at hw
        exact ih [] (by simp) w hw
      · rw [if_neg ha] at hw
        rcases List.mem_cons.mp hw with rfl | hw2
        · exact ⟨by simpa using ha, fun x hx => hacc x (by simpa using hx)⟩
        · exact ih [] (by simp) w hw2
    · rw [if_neg hc] at hw
      refine ih (c :: acc) ?_ w hw
      intro x hx
      rcases List.mem_cons.mp hx with rfl | hx2
      · simpa using hc
      · exact hacc x hx2

theorem pyWordsAux_pred (q : Char → Prop) :
    ∀ (l : Str) (acc : Str), (∀ c ∈ acc, q c) → (∀ c ∈ l, q c) →
      ∀ w ∈ pyWordsAux acc l, ∀ c ∈ w, q c := by
  intro l
  induction l with
  | nil =>
    intro acc hacc _ w hw
    simp only [pyWordsAux] at hw
    by_cases ha : acc = []
    · rw [if_pos ha] at hw; simp at hw
    · rw [if_neg ha] at hw
      simp only [List.mem_singleton] at hw
      subst hw
      exact fun c hc => hacc c (by simpa using hc)
  | cons c t ih =>
    intro acc hacc hl w hw
    simp only [pyWordsAux] at hw
    by_cases hc : isPyWs c = true
    · rw [if_pos hc] at hw
      by_cases ha : acc = []
      · rw [if_pos ha] at hw
        exact ih [] (by simp) (fun x hx => hl x (by simp [hx])) w hw
      · rw [if_neg ha] at hw
        rcases List.mem_cons.mp hw with rfl | hw2
        · exact fun x hx => hacc x (by simpa using hx)
        · exact ih [] (by simp) (fun x hx => hl x (by simp [hx])) w hw2
    · rw [if_neg hc] at hw
      refine ih (c :: acc) ?_ (fun x hx => hl x (by simp [hx])) w hw
      intro x hx
      rcases List.mem_cons.mp hx with rfl | hx2
      · exact hl x (by simp)
      · exact hacc x hx2

theorem pyWordsAux_word :
    ∀ (w : Str), (∀ c ∈ w, isPyWs c = false) →
      ∀ (acc : Str) (l : Str), pyWordsAux acc (w ++ l) = pyWordsAux (w.reverse ++ acc) l := by
  intro w
  induction w with
  | nil => intro _ acc l; simp
  | cons c t ih =>
    intro hw acc l
    have hc : isPyWs c = false := hw c (by simp)
    simp only [List.cons_append, pyWordsAux, hc]
    rw [if_neg (by simp [hc])]
    rw [List.append_eq, ih (fun x hx => hw x (by simp [hx])) (c :: acc) l]
    congr 1
    simp

theorem pyWords_joinSpace :
    ∀ (ws : List Str), (∀ w ∈ ws, w ≠ [] ∧ ∀ c ∈ w, isPyWs c = false) →
      pyWords (joinSpace ws) = ws := by
  intro ws
  induction ws with
  | nil => intro _; rfl
  | cons w rest ih =>
    intro h
    obtain ⟨hwne, hwc⟩ := h w (by simp)
    cases rest with
    | nil =>
      show pyWordsAux [] (joinSpace [w]) = [w]
      have : joinSpace [w] = w ++ [] := by simp [joinSpace]
      rw [this, pyWordsAux_word w hwc []]
      simp only [pyWordsAux, List.append_nil]
      rw [if_neg (by simpa using hwne)]
      simp
    | cons w2 rest2 =>
      show pyWordsAux [] (joinSpace (w :: w2 :: rest2)) = w :: w2 :: rest2
      have : joinSpace (w :: w2 :: rest2) = w ++ (' ' :: joinSpace (w2 :: rest2)) := by
        simp [joinSpace]
      rw [this, pyWordsAux_word w hwc []]
      simp only [pyWordsAux, if_pos rfl]
      rw [if_pos (by decide), if_neg (by simpa using hwne)]
      rw [show pyWordsAux [] (joinSpace (w2 :: rest2)) = w2 :: rest2 from
        ih (fun x hx => h x (by simp [hx]))]
      simp

theorem pyWords_facts (l : Str) :
    ∀ w ∈ pyWords l, w ≠ [] ∧ ∀ c ∈ w, isPyWs c = false :=
  pyWordsAux_words l [] (by simp)

theorem collapseWs_idem (l : Str) : collapseWs (collapseWs l) = collapseWs l := by
  unfold collapseWs
  rw [pyWords_joinSpace (pyWords l) (pyWords_facts l)]

theorem collapseWs_chars {l : Str} {c : Char} (hc : c ∈ collapseWs l) :
    c = ' ' ∨ isPyWs c = false := by
  unfold collapseWs at hc
  rcases joinSpace_mem hc with h | ⟨w, hw, hcw⟩
  · exact Or.inl h
  · exact Or.inr ((pyWords_facts l w hw).2 c hcw)

theorem collapseWs_pred {q : Char → Prop} {l : Str} (hl : ∀ c ∈ l, q c) (hsp : q ' ')
    {c : Char} (hc : c ∈ collapseWs l) : q c := by
  unfold collapseWs at hc
  rcases joinSpace_mem hc with rfl | ⟨w, hw, hcw⟩
  · exact hsp
  · exact pyWordsAux_pred q l [] (by simp) hl w hw c hcw

theorem collapseWs_no_dot {x : Str} (hmd : ∀ c ∈ x, c ≠ '.') :
    (collapseWs x).contains '.' = false := by
  refine contains_false_iff.mpr ?_
  intro hc
  exact absurd rfl (collapseWs_pred hmd (by decide) hc)

theorem map_nbsp_no_dot {x : Str} (hxd : '.' ∉ x) :
    ∀ c ∈ x.map (fun c => if c = ' ' then ' ' else c), c ≠ '.' := by
  intro c hc
  rcases List.mem_map.mp hc with ⟨a, ha, rfl⟩
  by_cases h2 : a = ' '
  · rw [if_pos h2]
    decide
  · rw [if_neg h2]
    intro e
    subst e
    exact hxd ha

theorem dp_no_dot {x : Str} (hx : x.contains '.' = false) :
    dp_normalize_amount x =
      collapseWs (x.map (fun c => if c = ' ' then ' ' else c)) := by
  have hvd := collapseWs_no_dot (map_nbsp_no_dot (contains_false_iff.mp hx))
  simp only [dp_normalize_amount]
  rw [hvd, Bool.and_false]
  rw [if_neg Bool.false_ne_true]
  rw [if_neg (by simp only [hvd]; exact Bool.false_ne_true)]

theorem dp_idem_no_dot {x : Str} (hx : x.contains '.' = false) :
    dp_normalize_amount (dp_normalize_amount x) = dp_normalize_amount x := by
  rw [dp_no_dot hx]
  have hvd := collapseWs_no_dot (map_nbsp_no_dot (contains_false_iff.mp hx))
  rw [dp_no_dot hvd]
  have hmap : (collapseWs (x.map (fun c => if c = ' ' then ' ' else c))).map
      (fun c => if c = ' ' then ' ' else c) =
      collapseWs (x.map (fun c => if c = ' ' then ' ' else c)) := by
    apply map_noop
    intro c hc
    rcases collapseWs_chars hc with rfl | hws
    · rw [if_neg (by decide)]
    · have hne : c ≠ ' ' := by
        intro e
        rw [e] at hws
        exact absurd hws (by decide)
      rw [if_neg hne]
  rw [hmap]
  exact collapseWs_idem _

/-- C8, amended: idempotence holds only piecewise, not for every decimal-looking
input. For `extraction_normalizer._format_amount` (modelled by `format_amount`),
every successfully formatted output is a fixed point: whenever `format_amount x`
returns `y`, formatting `y` again returns `y` unchanged, so applying the
normalizer twice equals applying it once wherever it succeeds. For
`DevisParser._normalize_amount` (modelled by `dp_normalize_amount`), idempotence
holds for every input without a dot — in particular for every already-canonical
French amount string such as `"1 234,56"` — but not in general: see the
counterexample below, where removing the thousands dot leaves an uncollapsed
space that only the second pass strips. -/
theorem C8_normalization_idempotent :
    (∀ x y : Str, format_amount x = .ok y → format_amount y = .ok y) ∧
    (∀ x : Str, x.contains '.' = false →
      dp_normalize_amount (dp_normalize_amount x) = dp_normalize_amount x) :=
  ⟨fun _ _ h => format_amount_idem h, fun _ hx => dp_idem_no_dot hx⟩

/-- Witness for C8 at concrete inputs: formatting the already-formatted
`"4 894,08"` returns it unchanged, and `DevisParser._normalize_amount` is
idempotent on `"1 234,56"`. -/
theorem C8_normalization_idempotent_witness :
    format_amount (str "4 894,08") = .ok (str "4 894,08") ∧
    dp_normalize_amount (dp_normalize_amount (str "1 234,56")) =
      dp_normalize_amount (str "1 234,56") :=
  ⟨C8_normalization_idempotent.1 (str "4894.08") (str "4 894,08") (by decide),
   C8_normalization_idempotent.2 (str "1 234,56") (by decide)⟩

/-- C8 counterexample: `DevisParser._normalize_amount` is not idempotent on
every decimal-looking input. The input `". 2,00"` is decimal-looking by the
code base's own shape test `\d[\d\s]*[.,]\d{2}` (it matches on `"2,00"`), yet
one normalization pass removes the dot as a thousands separator and returns
`" 2,00"` with an uncollapsed leading space, and a second pass collapses that
space and returns `"2,00"`, a different string. -/
theorem C8_dp_not_idempotent :
    searchM amountShapeMatcher (str ". 2,00") = true ∧
    dp_normalize_amount (str ". 2,00") = str " 2,00" ∧
    dp_normalize_amount (dp_normalize_amount (str ". 2,00")) = str "2,00" := by
  decide
